import Mathlib

/-!
# Formal model of the GRR Shell core (google/grrshell)

A shallow embedding, in Lean 4, of the pieces of `grrshell` that the
verified properties below are about:

* `grrshell/lib/grr_shell_emulated_fs.py` — the emulated remote filesystem
  (`_TimelineRow`, `_EmulatedFile`/`_EmulatedDirectory`, `ParseTimelineFlow`,
  `_AddRowToEmulatedFS`, `_ResolveRemotePathToEmulatedFS`, `RemotePathExists`,
  `Ls`, `ClearPath`);
* `grrshell/lib/grr_shell_client.py` — sync/async classification of resumable
  flows (`_GetResumableFlowSyncDetails`) and background-flow status rendering
  (`GetBackgroundFlowsState`);
* `grrshell/lib/client_monitors.py` — the flow monitor's bulk fetch
  (`FlowMonitor._SingleFetch`).

Python dictionaries are modelled as insertion-ordered association lists,
exceptions as an explicit error channel that also carries the state mutated
before the raise (Python mutations performed before an exception persist),
and CPython library functions used by the code (`posixpath.normpath`,
`str.splitlines`, `re.split` on the unescaped-pipe pattern, `fnmatch`)
are embedded directly.  Python `float` values are modelled as exact decimal
rationals plus `nan`/`inf` markers (the timeline code only ever parses,
stores and compares them); `int(...)`/`float(...)` string conversions are
modelled for the sign-and-digits forms that timeline feeds contain
(CPython additionally tolerates surrounding whitespace and underscores,
which no property here depends on).
-/

set_option maxHeartbeats 1000000
set_option maxRecDepth 16000

namespace GrrShell

/-! ## Python-level primitives -/

/-- Errors a Python exception can carry in the modelled code paths. -/
inductive PyErr where
  /-- `TypeError`, e.g. `_TimelineRow(*parts)` with too many fields. -/
  | typeError
  /-- `ValueError` from `int(...)` / `float(...)` on a malformed literal. -/
  | valueError
  /-- `IndexError`, e.g. `line[0]` on an empty line or `mode_as_string[0]`. -/
  | indexError
  /-- `AttributeError`, e.g. `children` accessed on an `_EmulatedFile`. -/
  | attributeError
  /-- `KeyError`, e.g. `dict.pop` on a missing key. -/
  | keyError
  deriving DecidableEq, Repr

/-- OS families used by the shell.  Modelled from the spec:
`utils.OS_TYPES`/`utils.WINDOWS` live in `grrshell/lib/utils.py`, which is
not part of the sources here; the spec describes "an operating-system family
(one of a small closed set)" with Windows-specific path handling. -/
inductive OsType where
  | linux
  | darwin
  | windows
  deriving DecidableEq, Repr

/-- Python `int(s)` for an optionally signed decimal literal
(whitespace/underscore tolerance of CPython is not modelled). -/
def pyParseInt (s : String) : Option Int :=
  match s.data with
  | [] => none
  | '-' :: ds => if ds ≠ [] ∧ ds.all Char.isDigit then some (-(ofDigits ds)) else none
  | '+' :: ds => if ds ≠ [] ∧ ds.all Char.isDigit then some (ofDigits ds) else none
  | ds => if ds.all Char.isDigit then some (ofDigits ds) else none
where
  /-- Value of a decimal digit string. -/
  ofDigits (ds : List Char) : Int :=
    ds.foldl (fun acc c => acc * 10 + (c.toNat - '0'.toNat)) 0

/-- A CPython `float` value as the timeline code observes it: an exact
decimal rational `m · 10^e`, or one of the special values.  Finite values
are kept canonical — `m` not divisible by 10, zero as `rat 0 0` — so that
structural equality is value equality; only `pyParseFloat` and the
all-zero defaults construct them.  (Two decimal literals that round to the
same IEEE double but denote different rationals are distinguished here;
timeline feeds do not exercise that corner.) -/
inductive PyFloat where
  | rat (m : Int) (e : Int)
  | nan
  | inf
  | ninf
  deriving DecidableEq, Repr

/-- Python `==` on modelled floats: `nan` is not equal to anything,
including itself.  Finite values are canonical, so their value equality is
component-wise. -/
def pyFloatEq : PyFloat → PyFloat → Bool
  | .rat a b, .rat a' b' => a == a' && b == b'
  | .inf, .inf => true
  | .ninf, .ninf => true
  | _, _ => false

/-- Digits-to-value helper for numeric parsing. -/
def digitsVal (ds : List Char) : ℤ :=
  ds.foldl (fun acc c => acc * 10 + (c.toNat - '0'.toNat)) 0

/-- Build the canonical finite float `±(digits) · 10^exp`: trailing zero
digits move into the exponent, and zero forgets sign and exponent. -/
def canonDecimal (neg : Bool) (digits : List Char) (exp : Int) : PyFloat :=
  let stripped := (digits.reverse.dropWhile (· = '0')).reverse
  if digitsVal stripped = 0 then .rat 0 0
  else
    let e := exp + ((digits.length : Int) - (stripped.length : Int))
    .rat (if neg then -(digitsVal stripped) else digitsVal stripped) e

/-- Intermediate result of parsing a float literal body. -/
inductive FloatBody where
  | num (digits : List Char) (exp : Int)
  | nan
  | inf
  deriving DecidableEq, Repr

/-- Parse the part of a float literal after an optional sign:
`digits [. digits] [e[sign]digits]` or `. digits [exp]`, `inf`, `infinity`,
`nan` (case-insensitive). -/
def pyParseFloatBody (ds : List Char) : Option FloatBody :=
  let lower := ds.map Char.toLower
  if lower = "inf".data ∨ lower = "infinity".data then some .inf
  else if lower = "nan".data then some .nan
  else
    let (intPart, rest) := ds.span Char.isDigit
    let (fracPart, rest2) :=
      match rest with
      | '.' :: r => let pr := r.span Char.isDigit; (pr.1, pr.2)
      | _ => ([], rest)
    let hasDot := rest.head? = some '.'
    if intPart = [] ∧ fracPart = [] ∧ ¬hasDot then none
    else if intPart = [] ∧ fracPart = [] then none
    else
      match rest2 with
      | [] => some (.num (intPart ++ fracPart) (-(fracPart.length : Int)))
      | e :: r =>
        if e = 'e' ∨ e = 'E' then
          let sd : Bool × List Char :=
            match r with
            | '-' :: r' => (true, r')
            | '+' :: r' => (false, r')
            | _ => (false, r)
          if sd.2 ≠ [] ∧ sd.2.all Char.isDigit then
            let ex := (if sd.1 then -(digitsVal sd.2) else digitsVal sd.2)
            some (.num (intPart ++ fracPart) (ex - (fracPart.length : Int)))
          else none
        else none

/-- Python `float(s)` (modulo CPython's whitespace/underscore tolerance). -/
def pyParseFloat (s : String) : Option PyFloat :=
  match s.data with
  | '-' :: r =>
    (pyParseFloatBody r).map fun b =>
      match b with
      | .num d e => canonDecimal true d e
      | .nan => .nan
      | .inf => .ninf
  | '+' :: r =>
    (pyParseFloatBody r).map fun b =>
      match b with
      | .num d e => canonDecimal false d e
      | .nan => .nan
      | .inf => .inf
  | r =>
    (pyParseFloatBody r).map fun b =>
      match b with
      | .num d e => canonDecimal false d e
      | .nan => .nan
      | .inf => .inf

/-- Split a character list on a separator character (as Python
`str.split(sep)`: n separators yield n+1 parts). -/
def splitChar (sep : Char) : List Char -> List (List Char)
  | [] => [[]]
  | c :: rest =>
    match splitChar sep rest with
    | [] => [[c]]
    | h :: t => if c = sep then [] :: h :: t else (c :: h) :: t

/-- Python `str.splitlines` after carriage returns have been removed:
split on `\n`, with no trailing empty line for a trailing newline.
(CPython also breaks on rarer control characters such as `\v`, `\f`
and U+2028, which timeline feeds do not contain.) -/
def pySplitlines (s : String) : List String :=
  if s.data = [] then []
  else
    let parts := splitChar '\n' s.data
    let parts := if s.data.getLast? = some '\n' then parts.dropLast else parts
    parts.map String.mk

/-- `timeline_data.replace('\r', '')`. -/
def stripCR (s : String) : String := String.mk (s.data.filter (· ≠ '\r'))

/-- `line.replace(r'\\', '/')` — replace each non-overlapping two-character
occurrence of a double backslash, left to right. -/
def replaceDoubleBackslash (s : String) : String := String.mk (go s.data)
where
  go : List Char → List Char
    | '\\' :: '\\' :: rest => '/' :: go rest
    | c :: rest => c :: go rest
    | [] => []

/-- `re.split(r'(?<!\\)\|', line)`: split on `|` not immediately preceded
by a backslash (the lookbehind inspects the raw previous character). -/
def splitUnescapedPipes (s : String) : List String :=
  (go s.data none).map (fun cs => String.mk cs)
where
  go : List Char → Option Char → List (List Char)
    | [], _ => [[]]
    | c :: rest, prev =>
      if c = '|' ∧ prev ≠ some '\\' then
        [] :: go rest (some c)
      else
        match go rest (some c) with
        | [] => [[c]]
        | h :: t => (c :: h) :: t

/-- CPython `posixpath.normpath`. -/
def posixNormpath (path : String) : String :=
  if path.data = [] then "."
  else
    let d := path.data
    let initialSlashes : Nat :=
      if d.head? = some '/' then
        if ['/', '/'].isPrefixOf d ∧ ¬(['/', '/', '/'].isPrefixOf d) then 2 else 1
      else 0
    let comps := splitChar '/' d
    let newComps := comps.foldl (fun acc comp =>
      if comp = [] ∨ comp = ['.'] then acc
      else if comp ≠ ['.', '.'] ∨ (initialSlashes = 0 ∧ acc = []) ∨
              (acc ≠ [] ∧ acc.getLast? = some ['.', '.']) then acc ++ [comp]
      else if acc ≠ [] then acc.dropLast
      else acc) []
    let joined := List.intercalate ['/'] newComps
    let out := List.replicate initialSlashes '/' ++ joined
    if out = [] then "." else String.mk out

/-- CPython `posixpath.dirname`. -/
def pyDirname (p : String) : String :=
  let data := p.data
  let i := (data.length - (data.reverse.takeWhile (· ≠ '/')).length)
  let head := String.mk (data.take i)
  if head ≠ "" ∧ head ≠ String.mk (List.replicate head.length '/') then
    String.mk (head.data.reverse.dropWhile (· = '/')).reverse
  else head

/-- CPython `posixpath.basename`. -/
def pyBasename (p : String) : String :=
  String.mk (p.data.reverse.takeWhile (· ≠ '/')).reverse

/-- CPython `posixpath.join` for two arguments. -/
def pyJoin (a b : String) : String :=
  if b.data.head? = some '/' then b
  else if a.data = [] ∨ a.data.getLast? = some '/' then String.mk (a.data ++ b.data)
  else String.mk (a.data ++ '/' :: b.data)

/-- Substring containment (used to state facts about rendered messages). -/
def containsSubstr (s sub : String) : Prop :=
  sub.data.IsInfix s.data

instance (s sub : String) : Decidable (containsSubstr s sub) :=
  List.decidableInfix sub.data s.data

instance {ε α : Type} [DecidableEq ε] [DecidableEq α] : DecidableEq (Except ε α) :=
  fun a b =>
    match a, b with
    | .error x, .error y =>
      if h : x = y then .isTrue (by rw [h]) else .isFalse (fun he => h (by injection he))
    | .error _, .ok _ => .isFalse (fun he => Except.noConfusion he)
    | .ok _, .error _ => .isFalse (fun he => Except.noConfusion he)
    | .ok x, .ok y =>
      if h : x = y then .isTrue (by rw [h]) else .isFalse (fun he => h (by injection he))

/-! ## `_TimelineRow` (grr_shell_emulated_fs.py)

GRR timelines use the Sleuthkit body-file format
`MD5|name|inode|mode_as_string|UID|GID|size|atime|mtime|ctime|crtime`. -/

/-- The `inode` field: `__post_init__` tries `int(self.inode)` and keeps the
raw string when that raises `ValueError`. -/
inductive InodeVal where
  | int (i : Int)
  | str (s : String)
  deriving DecidableEq, Repr

/-- `_TimelineRow`, after `__post_init__` has run its casts. -/
structure TimelineRow where
  md5 : String
  name : String
  inode : InodeVal
  mode_as_string : String
  uid : Int
  gid : Int
  size : Int
  atime : PyFloat
  mtime : PyFloat
  ctime : PyFloat
  crtime : PyFloat
  deriving DecidableEq, Repr

/-- `_TimelineRow()` — the all-defaults row used as the placeholder value. -/
def defaultRow : TimelineRow :=
  ⟨"", "", .int 0, "----------", 0, 0, 0, .rat 0 0, .rat 0 0, .rat 0 0, .rat 0 0⟩

/-- Python `==` on the inode field (an `int` never equals a `str`). -/
def pyEqInode : InodeVal → InodeVal → Bool
  | .int a, .int b => a == b
  | .str a, .str b => a == b
  | _, _ => false

/-- Python dataclass `==` on `_TimelineRow` (field-wise, `nan`-aware). -/
def pyEqRow (a b : TimelineRow) : Bool :=
  a.md5 == b.md5 && a.name == b.name && pyEqInode a.inode b.inode &&
  a.mode_as_string == b.mode_as_string && a.uid == b.uid && a.gid == b.gid &&
  a.size == b.size && pyFloatEq a.atime b.atime && pyFloatEq a.mtime b.mtime &&
  pyFloatEq a.ctime b.ctime && pyFloatEq a.crtime b.crtime

/-- An integer field of `__post_init__`: default `0` when the positional
argument is absent, otherwise `int(...)` which may raise `ValueError`. -/
def pyIntField : Option String → Option Int
  | none => some 0
  | some s => pyParseInt s

/-- A float field of `__post_init__`: default `0.0` when absent, otherwise
`float(...)` which may raise `ValueError`. -/
def pyFloatField : Option String → Option PyFloat
  | none => some (.rat 0 0)
  | some s => pyParseFloat s

/-- `_TimelineRow(*parts)`: `TypeError` when more than 11 positional
arguments are given; otherwise the dataclass fields are filled left to right
(missing ones defaulted) and `__post_init__` casts them, raising
`ValueError` on a malformed numeric literal. -/
def mkRow (parts : List String) : Except PyErr TimelineRow :=
  if parts.length > 11 then .error .typeError
  else
    let md5 := parts.getD 0 ""
    let name := parts.getD 1 ""
    let inode : InodeVal :=
      match parts.get? 2 with
      | none => .int 0
      | some s =>
        match pyParseInt s with
        | some i => .int i
        | none => .str s
    let mode := parts.getD 3 "----------"
    match pyIntField (parts.get? 4), pyIntField (parts.get? 5), pyIntField (parts.get? 6),
          pyFloatField (parts.get? 7), pyFloatField (parts.get? 8),
          pyFloatField (parts.get? 9), pyFloatField (parts.get? 10) with
    | some uid, some gid, some size, some t1, some t2, some t3, some t4 =>
      .ok ⟨md5, name, inode, mode, uid, gid, size, t1, t2, t3, t4⟩
    | _, _, _, _, _, _, _ => .error .valueError

/-! ## The emulated filesystem tree

`_EmulatedFile` / `_EmulatedDirectory` with the directory's `children` dict
modelled as an insertion-ordered association list (CPython dicts preserve
insertion order; `_AddRowToEmulatedFS` only ever inserts at the end).
The root directory is kept as a separate `EFSRoot` record because
`_AddRowToEmulatedFS` and `ClearPath` special-case `self._root`. -/

/-- A node of the emulated FS: `_EmulatedFile` or `_EmulatedDirectory`. -/
inductive FSEntry where
  | file (filename : String) (stats : TimelineRow)
  | dir (filename : String) (stats : TimelineRow) (timeline_time : Int)
        (children : List (String × FSEntry))

abbrev Children := List (String × FSEntry)

/-- First-match lookup in a children dict. -/
def lookupC (k : String) : Children → Option FSEntry
  | [] => none
  | (k', v) :: rest => if k' = k then some v else lookupC k rest

/-- Replace the value stored under an existing key. -/
def replaceC (k : String) (v : FSEntry) : Children → Children
  | [] => []
  | (k', v') :: rest => if k' = k then (k', v) :: rest else (k', v') :: replaceC k v rest

/-- `dict.pop`-style removal of a key. -/
def removeC (k : String) : Children → Children
  | [] => []
  | (k', v) :: rest => if k' = k then rest else (k', v) :: removeC k rest

def FSEntry.filename : FSEntry → String
  | .file fn _ => fn
  | .dir fn _ _ _ => fn

def FSEntry.stats : FSEntry → TimelineRow
  | .file _ st => st
  | .dir _ st _ _ => st

/-- `isinstance(entry, _EmulatedDirectory)`. -/
def FSEntry.isDir : FSEntry → Bool
  | .file _ _ => false
  | .dir _ _ _ _ => true

/-- The `self._root` directory: stats, timeline time and children.
(Its `filename` is always `'/'`.) -/
structure EFSRoot where
  stats : TimelineRow
  timeline_time : Int
  children : Children

/-- The root as an `FSEntry`, as returned by path resolution for `/`. -/
def rootEntry (s : EFSRoot) : FSEntry := .dir "/" s.stats s.timeline_time s.children

/-- A freshly initialised emulated FS root:
`_EmulatedDirectory('/', _TimelineRow(), {})`. -/
def emptyRoot : EFSRoot := ⟨defaultRow, 0, []⟩

/-- `if current_ptr.stats == _TimelineRow(): current_ptr.stats = row` — the
guarded stats update performed after the walk of `_AddRowToEmulatedFS`. -/
def FSEntry.updStats (row : TimelineRow) : FSEntry → FSEntry
  | .file fn st => if pyEqRow st defaultRow then .file fn row else .file fn st
  | .dir fn st tl cs => if pyEqRow st defaultRow then .dir fn row tl cs else .dir fn st tl cs

/-- The component walk of `_AddRowToEmulatedFS` below the root: empty
components are skipped; a missing component is created (the prebuilt
`fs_entry` if the component equals `last_part`, else a placeholder directory
with default stats); stepping from an `_EmulatedFile` raises
`AttributeError` at the `in current_ptr.children` membership test.  Mutations
made before a raise persist, so the updated node is returned alongside the
error. -/
def addRowEntry (lastPart : String) (fsEntry : FSEntry) (row : TimelineRow) (t : Int) :
    List String → FSEntry → FSEntry × Option PyErr
  | [], e => (e.updStats row, none)
  | p :: rest, e =>
    if p = "" then addRowEntry lastPart fsEntry row t rest e
    else
      match e with
      | .file fn st => (.file fn st, some .attributeError)
      | .dir fn st tl cs =>
        match lookupC p cs with
        | some child =>
          let res := addRowEntry lastPart fsEntry row t rest child
          (.dir fn st tl (replaceC p res.1 cs), res.2)
        | none =>
          let node := if p = lastPart then fsEntry else .dir p defaultRow t []
          let res := addRowEntry lastPart fsEntry row t rest node
          (.dir fn st tl (cs ++ [(p, res.1)]), res.2)

/-- The same walk, started at `self._root`. -/
def addRowRoot (lastPart : String) (fsEntry : FSEntry) (row : TimelineRow) (t : Int) :
    List String → EFSRoot → EFSRoot × Option PyErr
  | [], s => ({ s with stats := if pyEqRow s.stats defaultRow then row else s.stats }, none)
  | p :: rest, s =>
    if p = "" then addRowRoot lastPart fsEntry row t rest s
    else
      match lookupC p s.children with
      | some child =>
        let res := addRowEntry lastPart fsEntry row t rest child
        ({ s with children := replaceC p res.1 s.children }, res.2)
      | none =>
        let node := if p = lastPart then fsEntry else .dir p defaultRow t []
        let res := addRowEntry lastPart fsEntry row t rest node
        ({ s with children := s.children ++ [(p, res.1)] }, res.2)

/-- The Windows adjustment performed first by `_AddRowToEmulatedFS`:
`row.name = f'/{row.name}'`. -/
def windowsAdjust (os : OsType) (row : TimelineRow) : TimelineRow :=
  if os = .windows then { row with name := "/" ++ row.name } else row

/-- `GrrShellEmulatedFS._AddRowToEmulatedFS`: on Windows the row's name is
first prefixed with `/`; a row named `/` overwrites the root's stats and
timeline time unconditionally; otherwise the normalised name is split on
`/`, the prebuilt leaf (`fs_entry`, directory iff `mode_as_string[0] == 'd'`,
with `IndexError` on an empty mode string) is attached by the walk, and the
reached node's stats are set from the row if they are still the
placeholder. -/
def addRowToEmulatedFS (os : OsType) (row0 : TimelineRow) (t : Int) (s : EFSRoot) :
    EFSRoot × Option PyErr :=
  let row := windowsAdjust os row0
  if row.name = "/" then ({ s with stats := row, timeline_time := t }, none)
  else
    let parts := (splitChar '/' (posixNormpath row.name).data).map String.mk
    let lastPart := parts.getLastD ""
    match row.mode_as_string.data.head? with
    | none => (s, some .indexError)
    | some c =>
      let fsEntry := if c = 'd' then FSEntry.dir lastPart row t [] else FSEntry.file lastPart row
      addRowRoot lastPart fsEntry row t parts s

/-- One iteration of the line loop of `ParseTimelineFlow`: `line[0]` raises
`IndexError` on an empty line; `#` lines are skipped; on Windows `\\` is
replaced by `/`; the line is split on unescaped pipes, turned into a
`_TimelineRow` and added to the tree. -/
def processLine (os : OsType) (t : Int) (line : String) (s : EFSRoot) :
    EFSRoot × Option PyErr :=
  match line.data.head? with
  | none => (s, some .indexError)
  | some c =>
    if c = '#' then (s, none)
    else
      let line' := if os = .windows then replaceDoubleBackslash line else line
      match mkRow (splitUnescapedPipes line') with
      | .error e => (s, some e)
      | .ok row => addRowToEmulatedFS os row t s

/-- The line loop: an uncaught exception aborts the loop but keeps all
mutations made so far. -/
def processLines (os : OsType) (t : Int) : List String → EFSRoot → EFSRoot × Option PyErr
  | [], s => (s, none)
  | l :: rest, s =>
    match processLine os t l s with
    | (s', none) => processLines os t rest s'
    | (s', some e) => (s', some e)

/-- The effect of `GrrShellEmulatedFS.ParseTimelineFlow` on the tree:
carriage returns are stripped, the feed is split into lines and each line is
consumed.  (The final `RemotePathExists(GetPWD(), dirs_only=True)` check
only reads the tree and possibly re-points `self._pwd`; it does not modify
any node, so it does not appear at the tree level.) -/
def parseTimelineFlowTree (os : OsType) (feed : String) (t : Int) (s : EFSRoot) :
    EFSRoot × Option PyErr :=
  processLines os t (pySplitlines (stripCR feed)) s

/-! ## Path resolution -/

/-- `[p for p in os.path.normpath(remote_path).split(os.sep) if p]`. -/
def pathParts (p : String) : List String :=
  (((splitChar '/' (posixNormpath p).data).map String.mk).filter (· ≠ ""))

/-- How `_ResolveRemotePathToEmulatedFS` can raise. -/
inductive ResolveErr where
  | invalidRemotePath (path : String)
  | attributeError
  deriving DecidableEq, Repr

/-- The resolution walk: at each component, `part not in current_ptr.children`
raises `AttributeError` when `current_ptr` is an `_EmulatedFile` (which has
no `children` attribute) and `InvalidRemotePathError` when the component is
missing. -/
def resolveWalk (remotePath : String) : List String → FSEntry → Except ResolveErr FSEntry
  | [], e => .ok e
  | p :: rest, e =>
    match e with
    | .file _ _ => .error .attributeError
    | .dir _ _ _ cs =>
      match lookupC p cs with
      | none => .error (.invalidRemotePath remotePath)
      | some child => resolveWalk remotePath rest child

/-- `GrrShellEmulatedFS._ResolveRemotePathToEmulatedFS`. -/
def resolveRemotePath (s : EFSRoot) (remotePath : String) : Except ResolveErr FSEntry :=
  resolveWalk remotePath (pathParts remotePath) (rootEntry s)

/-- `GrrShellEmulatedFS.RemotePathExists`: only `InvalidRemotePathError` is
caught (and turned into `False`); any other exception propagates. -/
def remotePathExists (s : EFSRoot) (path : String) (dirsOnly : Bool) :
    Except ResolveErr Bool :=
  match resolveRemotePath s path with
  | .ok entry => if dirsOnly then .ok entry.isDir else .ok true
  | .error (.invalidRemotePath _) => .ok false
  | .error .attributeError => .error .attributeError

/-- `GrrShellEmulatedFS.NormaliseFSPath`, with `pwd` the value of
`self.GetPWD()`. -/
def normaliseFSPath (pwd : String) (path : String) : String :=
  if path = "" then "/"
  else if path.data.head? = some '/' then posixNormpath path
  else posixNormpath (pyJoin pwd path)

/-! ## Observation helpers (not part of the source; used to state claims) -/

/-- The node sitting at a component address, walking only through
directories. -/
def entryAtE : List String → FSEntry → Option FSEntry
  | [], e => some e
  | k :: rest, .dir _ _ _ cs =>
    match lookupC k cs with
    | some e => entryAtE rest e
    | none => none
  | _ :: _, .file _ _ => none

/-- The node at an address, starting from the root. -/
def entryAt (s : EFSRoot) (addr : List String) : Option FSEntry :=
  entryAtE addr (rootEntry s)

/-- The child names of the directory at an address (empty when the address
does not denote a directory). -/
def childKeysAt (s : EFSRoot) (addr : List String) : List String :=
  match entryAt s addr with
  | some (.dir _ _ _ cs) => cs.map Prod.fst
  | _ => []

/-! ## `Ls` -/

/-- An `_LSEntry`.  The source stores `utils.UnixTSToReadable(stats.mtime)`
(a display string) in `mtime`; `utils.py` is not among the sources, so the
raw modification time is kept here instead — `mtime` is only ever displayed
or used as a sort key, and no property below depends on its rendering. -/
structure LSEntry where
  mode_as_string : String
  uid : Int
  gid : Int
  size : Int
  mtime : PyFloat
  name : String
  deriving DecidableEq, Repr

/-- `_EmulatedFile.GetLSEntry` (inherited by `_EmulatedDirectory`). -/
def FSEntry.getLSEntry (e : FSEntry) (dotName : Bool := false) : LSEntry :=
  { mode_as_string := e.stats.mode_as_string, uid := e.stats.uid, gid := e.stats.gid,
    size := e.stats.size, mtime := e.stats.mtime,
    name := if dotName then "." else e.filename }

/-- `_LSEntry.__lt__`: directories sort before files, otherwise by name.
(The source indexes `mode_as_string[0]`, which would raise `IndexError` on
an empty mode string mid-sort; an empty mode is read as a non-`'d'`
character here, and no property below exercises that corner.) -/
def lsLt (a b : LSEntry) : Bool :=
  let ad := a.mode_as_string.data.headD ' '
  let bd := b.mode_as_string.data.headD ' '
  if ((if ad = 'd' then 1 else 0) + (if bd = 'd' then 1 else 0) : Nat) = 1 then ad = 'd'
  else a.name < b.name

/-- An ordering key on modelled floats (`mtime` sort key).  The source sorts
the rendered time strings; ISO-8601 strings sort chronologically, so the
value ordering is used here.  Special values are ordered arbitrarily; no
property below depends on this key. -/
def pyFloatLe : PyFloat → PyFloat → Bool
  | .rat m e, .rat m' e' =>
    if e ≤ e' then m ≤ m' * 10 ^ (e' - e).toNat else m * 10 ^ (e - e').toNat ≤ m' 
  | .ninf, _ => true
  | _, .inf => true
  | .nan, _ => true
  | _, _ => false

/-- A stable insertion into an ascending list (`le` total): ties keep the
earlier element first. -/
def stableInsert (le : α → α → Bool) (x : α) : List α → List α
  | [] => [x]
  | y :: ys => if le x y then x :: y :: ys else y :: stableInsert le x ys

/-- A stable ascending sort, as CPython's `sorted` (Timsort is stable). -/
def stableSort (le : α → α → Bool) : List α → List α
  | [] => []
  | x :: xs => stableInsert le x (stableSort le xs)

/-- CPython `sorted(xs, key=…, reverse=…)`: `reverse=True` behaves like
reversing, sorting ascending stably, then reversing again (equal elements
keep their original relative order). -/
def pySorted (le : α → α → Bool) (reverse : Bool) (xs : List α) : List α :=
  if reverse then (stableSort le xs.reverse).reverse else stableSort le xs

/-- The comparison selected by `_LS_SORT_KEY_MAP.get(sortkey)`: `'S'` sorts
by size, `'t'` by modification time, anything else (including `None`) falls
back to `_LSEntry.__lt__`. -/
def lsSortLe (sortkey : Option String) (a b : LSEntry) : Bool :=
  if sortkey = some "S" then a.size ≤ b.size
  else if sortkey = some "t" then pyFloatLe a.mtime b.mtime
  else !lsLt b a

/-- How `Ls` can fail. -/
inductive LsErr where
  /-- `errors.InvalidRemotePathError` from resolution. -/
  | invalidRemotePath (path : String)
  /-- `AttributeError` from resolving through a file. -/
  | attributeError
  /-- The `RuntimeError('Globbing only supported …')` usage error. -/
  | globUsage (msg : String)
  deriving DecidableEq, Repr

/-- Scan for the `]` closing a bracket set, returning the set body and the
remaining pattern. -/
def findCloseBracket : List Char → Option (List Char × List Char)
  | [] => none
  | ']' :: rest => some ([], rest)
  | c :: rest => (findCloseBracket rest).map
      (fun (pr : List Char × List Char) => (c :: pr.1, pr.2))

/-- Character-set membership, with `a-b` ranges and a trailing literal
`-`. -/
def classMatches : List Char → Char → Bool
  | a :: '-' :: b :: rest, c => (a ≤ c ∧ c ≤ b) || classMatches rest c
  | a :: rest, c => (a = c) || classMatches rest c
  | [], _ => false

/-- Shell-style matching: `*`, `?`, `[seq]`, `[!seq]`, an unmatched `[`
taken literally, following `fnmatch.translate`.  The `fuel` argument is a
structural-recursion bound only: every recursive call strictly shortens the
pattern, so a fuel of the pattern's length never runs out (the `*` case
tries the rest of the pattern against every suffix of the string instead of
re-trying the same pattern, which matches the regex `.*` semantics of
`fnmatch.translate`). -/
def globMatchFuel : Nat → List Char → List Char → Bool
  | _, [], s => s.isEmpty
  | 0, _ :: _, _ => false
  | fuel + 1, '*' :: ps, s => s.tails.any (fun s' => globMatchFuel fuel ps s')
  | fuel + 1, '?' :: ps, s =>
    (match s with
     | [] => false
     | _ :: s' => globMatchFuel fuel ps s')
  | fuel + 1, '[' :: ps, s =>
    let neg := ps.head? = some '!'
    let ps1 := if neg then ps.tail else ps
    let parsed :=
      match ps1 with
      | ']' :: r => (findCloseBracket r).map
          (fun (pr : List Char × List Char) => (']' :: pr.1, pr.2))
      | _ => findCloseBracket ps1
    (match parsed, s with
     | none, '[' :: s' => globMatchFuel fuel ps s'
     | none, _ => false
     | some _, [] => false
     | some pr, c :: s' => (classMatches pr.1 c != neg) && globMatchFuel fuel pr.2 s')
  | fuel + 1, p :: ps, s =>
    (match s with
     | [] => false
     | c :: s' => (p = c) && globMatchFuel fuel ps s')

/-- `fnmatch.fnmatch(name, pattern)` (POSIX `normcase` is the identity). -/
def fnmatchMatches (pattern name : String) : Bool :=
  globMatchFuel pattern.data.length pattern.data name.data

/-- `GrrShellEmulatedFS.Ls`.  `pwd` is the value of `self.GetPWD()`. -/
def Ls (s : EFSRoot) (pwd : String) (path : Option String)
    (sortkey : Option String := none) (ascending : Bool := true) :
    Except LsErr (List LSEntry) :=
  let p :=
    match path with
    | none => pwd
    | some q => if q = "" then pwd else normaliseFSPath pwd q
  let globTail : Option String := if p.data.contains '*' then some (pyBasename p) else none
  let p := match globTail with
    | some _ => pyDirname p
    | none => p
  if h : globTail.isSome ∧ p.data.contains '*' then
    .error (.globUsage ("Globbing only supported for the final path component: "
      ++ pyJoin p (globTail.get h.1)))
  else
    match resolveRemotePath s p with
    | .error (.invalidRemotePath q) => .error (.invalidRemotePath q)
    | .error .attributeError => .error .attributeError
    | .ok entry =>
      let entries :=
        match entry with
        | .dir fn st tl cs =>
          let es := (FSEntry.dir fn st tl cs).getLSEntry true ::
            cs.map (fun c => c.2.getLSEntry)
          match globTail with
          | some tail => es.filter (fun e => fnmatchMatches tail e.name)
          | none => es
        | .file fn st => [(FSEntry.file fn st).getLSEntry]
      .ok (pySorted (lsSortLe sortkey) (!ascending) entries)

/-! ## `ClearPath` -/

/-- In-place modification of the node at an address (used to model
`node.timeline_time = …` performed on a node that is still attached). -/
def modifyAtC (f : FSEntry → FSEntry) : List String → Children → Children
  | [], cs => cs
  | [k], cs =>
    match lookupC k cs with
    | some v => replaceC k (f v) cs
    | none => cs
  | k :: rest, cs =>
    match lookupC k cs with
    | some (.dir fn st tl cs') => replaceC k (.dir fn st tl (modifyAtC f rest cs')) cs
    | _ => cs

/-- `node.timeline_time = timeline_time` on the node at `addr` (assigning the
attribute on an `_EmulatedFile` creates an unused dynamic attribute, so file
nodes are unchanged). -/
def setTlAt (s : EFSRoot) (addr : List String) (t : Int) : EFSRoot :=
  match addr with
  | [] => { s with timeline_time := t }
  | _ =>
    { s with children := modifyAtC (fun e =>
        match e with
        | .dir fn st _ cs => .dir fn st t cs
        | f => f) addr s.children }

/-- Modify the children dict of the directory at an address. -/
def modChildrenAt (s : EFSRoot) (addr : List String) (g : Children → Children) : EFSRoot :=
  match addr with
  | [] => { s with children := g s.children }
  | _ =>
    { s with children := modifyAtC (fun e =>
        match e with
        | .dir fn st tl cs => .dir fn st tl (g cs)
        | f => f) addr s.children }

/-- `GrrShellEmulatedFS.ClearPath`.  `/` replaces the root wholesale; any
other path is resolved (a failed resolution is swallowed), the resolved
node's timeline time is stamped in place, and the node is popped from the
parent — found by re-resolving `os.path.dirname(node.stats.name)`, i.e. the
dirname of the *row-recorded* name.  A failed parent resolution is likewise
swallowed; `children` on a file parent raises `AttributeError` and a missing
key raises `KeyError`, neither of which is caught. -/
def clearPath (s : EFSRoot) (remotePath : String) (t : Int) : EFSRoot × Option PyErr :=
  if remotePath = "/" then (⟨defaultRow, t, []⟩, none)
  else
    match resolveRemotePath s remotePath with
    | .error (.invalidRemotePath _) => (s, none)
    | .error .attributeError => (s, some .attributeError)
    | .ok node =>
      let s1 := setTlAt s (pathParts remotePath) t
      match resolveRemotePath s1 (pyDirname node.stats.name) with
      | .error (.invalidRemotePath _) => (s1, none)
      | .error .attributeError => (s1, some .attributeError)
      | .ok (.file _ _) => (s1, some .attributeError)
      | .ok (.dir _ _ _ pcs) =>
        if (lookupC node.filename pcs).isSome then
          (modChildrenAt s1 (pathParts (pyDirname node.stats.name)) (removeC node.filename), none)
        else
          (s1, some .keyError)

/-! ## `grr_shell_client.py`: flow data and sync/async classification -/

/-- Generic first-match association-list lookup (Python dict access). -/
def lookupKey {α : Type} (k : String) : List (String × α) → Option α
  | [] => none
  | (k', v) :: rest => if k' = k then some v else lookupKey k rest

/-- `flows_pb2.FileFinderAction.Action` values used by the shell. -/
inductive FFActionType where
  | stat
  | hash
  | download
  deriving DecidableEq, Repr

/-- `FileFinderAction.Action.Name`. -/
def ffActionName : FFActionType → String
  | .stat => "STAT"
  | .hash => "HASH"
  | .download => "DOWNLOAD"

/-- `flows_pb2.FileFinderArgs` (the fields the shell reads). -/
structure FileFinderArgs where
  action : FFActionType
  paths : List String
  deriving DecidableEq, Repr

/-- `flows_pb2.GetFileArgs` (the fields the shell reads); an absent
alternate-data-stream name is the empty string, as in proto3. -/
structure GetFileArgs where
  path : String
  stream_name : String
  deriving DecidableEq, Repr

/-- The typed argument payload carried by `flow.data.args`, together with
its `TypeName()` dispatch: one arm per typename in `parsing_functions`,
plus the unsupported arm. -/
inductive FlowArgs where
  | fileFinder (args : FileFinderArgs)
  | getFile (args : GetFileArgs)
  | timeline (root : String)
  | artifactCollector (artifact_list : List String)
  | unsupported (typename : String)
  deriving DecidableEq, Repr

/-- `flows_pb2.FlowContext.State` (terminal and non-terminal states the
shell distinguishes). -/
inductive FlowState where
  | running
  | terminated
  | error
  | clientCrashed
  deriving DecidableEq, Repr

/-- `flows_pb2.FlowContext.State.Name`. -/
def flowStateName : FlowState → String
  | .running => "RUNNING"
  | .terminated => "TERMINATED"
  | .error => "ERROR"
  | .clientCrashed => "CLIENT_CRASHED"

/-- The slice of `flow.Flow.data` the modelled code reads. -/
structure FlowData where
  flow_id : String
  name : String
  state : FlowState
  args : FlowArgs
  deriving DecidableEq, Repr

/-- `flows_pb2.FileFinderArgs.FromString(flow_handle.data.args.value)`:
decoding the raw payload bytes as `FileFinderArgs`.  When the payload
really is a `FileFinderArgs` this returns it; a foreign payload decodes to
an arbitrary (default-valued) message — the shell only performs this on
flows named `ClientFileFinder`, whose payload is a `FileFinderArgs`. -/
def ffArgsFromPayload : FlowArgs → FileFinderArgs
  | .fileFinder a => a
  | _ => ⟨.stat, []⟩

/-- `GRRShellClient._ParseArgsFromFlow`.  (The source indexes `paths[0]` /
`artifact_list[0]`, an `IndexError` when the repeated field is empty; the
first element is taken with an empty-string fallback here, and no property
below exercises that corner.) -/
def parseArgsFromFlow (f : FlowData) : String :=
  match f.args with
  | .fileFinder a => ffActionName a.action ++ " " ++ a.paths.headD ""
  | .getFile a => if a.stream_name ≠ "" then a.path ++ ":" ++ a.stream_name else a.path
  | .timeline root => root
  | .artifactCollector al => al.headD ""
  | .unsupported _ => "<UNSUPPORTED FLOW TYPE>"

/-- The synchronous-completion callbacks `_GetResumableFlowSyncDetails` can
select. -/
inductive SyncCallback where
  | extractADSResults
  | extractFileFinderInfo
  deriving DecidableEq, Repr

/-- `('ClientFileFinder', 'ArtifactCollectorFlow', 'GetFile')`. -/
def RESUMABLE_FLOW_TYPES : List String :=
  ["ClientFileFinder", "ArtifactCollectorFlow", "GetFile"]

/-- `GRRShellClient._GetResumableFlowSyncDetails`: `GetFile` is always
synchronous; `ArtifactCollectorFlow` is always asynchronous;
`ClientFileFinder` is asynchronous exactly when its declared action is
`DOWNLOAD`; anything else raises `NotResumeableFlowTypeError` (modelled as
the error message). -/
def getResumableFlowSyncDetails (f : FlowData) :
    Except String (Bool × Option SyncCallback) :=
  if f.name = "GetFile" then .ok (true, some .extractADSResults)
  else if f.name = "ArtifactCollectorFlow" then .ok (false, none)
  else if f.name = "ClientFileFinder" then
    let ffArgs := ffArgsFromPayload f.args
    if ffArgs.action = .download then .ok (false, none)
    else .ok (true, some .extractFileFinderInfo)
  else
    .error ("Flow " ++ f.flow_id ++ " is of type " ++ f.name ++
      ", not supported for resumption.")

/-! ## `GetBackgroundFlowsState` -/

/-- The slice of a `concurrent.futures.Future` the status query reads:
`running()` and `exception()` (the captured exception's text, `none` when
the task finished cleanly or is still running). -/
structure FutureModel where
  running : Bool
  exception : Option String
  deriving DecidableEq, Repr

/-- `_LaunchedFlow`. -/
structure LaunchedFlow where
  future : FutureModel
  flow : FlowData
  exception_displayed : Bool
  deriving DecidableEq, Repr

/-- `'\n'.join(...)`. -/
def joinLines : List String → String
  | [] => ""
  | [x] => x
  | x :: rest => x ++ "\n" ++ joinLines rest

/-- One iteration of the `GetBackgroundFlowsState` loop over a
`_LaunchedFlow`: refresh the flow if its last known state was `RUNNING`
(`env` maps a flow id to the remote side's current view), derive the
three-way display state, render the parameter, and append the captured
exception's text whenever the future is no longer running and holds one —
setting `exception_displayed`.  Returns the rendered line and the mutated
record. -/
def renderBackgroundFlow (env : String → FlowData) (lf : LaunchedFlow) :
    String × LaunchedFlow :=
  let running := lf.future.running
  let flow := if lf.flow.state = .running then env lf.flow.flow_id else lf.flow
  let state :=
    if flow.state = .terminated then (if running then "DOWNLOADING" else "COMPLETE")
    else flowStateName flow.state
  let param := parseArgsFromFlow flow
  let rendered :=
    if ¬running ∧ lf.future.exception.isSome then
      ("\t" ++ flow.flow_id ++ " " ++ flow.name ++ " " ++ param ++ " " ++ state ++
        " \"" ++ lf.future.exception.getD "" ++ "\"", true)
    else
      ("\t" ++ flow.flow_id ++ " " ++ flow.name ++ " " ++ param ++ " " ++ state,
        lf.exception_displayed)
  (rendered.1, { lf with flow := flow, exception_displayed := rendered.2 })

/-- `GRRShellClient.GetBackgroundFlowsState`: renders one line per tracked
flow and returns the updated `_launched_flows` table (the Python loop
mutates the records in place). -/
def getBackgroundFlowsState (env : String → FlowData)
    (launched : List (String × LaunchedFlow)) :
    String × List (String × LaunchedFlow) :=
  if launched.isEmpty then ("No launched flows", launched)
  else
    let results := launched.map (fun kv => (kv.1, renderBackgroundFlow env kv.2))
    (joinLines (results.map (fun kv => kv.2.1)),
     results.map (fun kv => (kv.1, kv.2.2)))

/-! ## `client_monitors.py`: the flow monitor's bulk fetch -/

/-- `FlowMonitor._SingleFetch`: list all flows known to the endpoint and
insert any whose id is not yet cached; cached entries are never touched. -/
def singleFetch (cache : List (String × FlowData)) (listed : List FlowData) :
    List (String × FlowData) :=
  listed.foldl
    (fun c f => if (lookupKey f.flow_id c).isSome then c else c ++ [(f.flow_id, f)])
    cache

/-! ## Helper lemmas: children dictionaries -/

theorem lookupC_mem (k : String) (cs : Children) (v : FSEntry)
    (h : lookupC k cs = some v) : (k, v) ∈ cs := by
  induction cs with
  | nil => simp [lookupC] at h
  | cons hd tl ih =>
    obtain ⟨k', v'⟩ := hd
    by_cases hk : k' = k
    · rw [lookupC, if_pos hk] at h
      cases h
      subst hk
      exact List.mem_cons_self _ _
    · rw [lookupC, if_neg hk] at h
      exact List.mem_cons_of_mem _ (ih h)

theorem lookupC_replaceC_self (k : String) (v : FSEntry) (cs : Children)
    (h : (lookupC k cs).isSome) : lookupC k (replaceC k v cs) = some v := by
  induction cs with
  | nil => simp [lookupC] at h
  | cons hd tl ih =>
    obtain ⟨k', v'⟩ := hd
    by_cases hk : k' = k
    · rw [replaceC, if_pos hk, lookupC, if_pos hk]
    · rw [lookupC, if_neg hk] at h
      rw [replaceC, if_neg hk, lookupC, if_neg hk]
      exact ih h

theorem lookupC_replaceC_ne (k k' : String) (v : FSEntry) (cs : Children)
    (h : k' ≠ k) : lookupC k' (replaceC k v cs) = lookupC k' cs := by
  induction cs with
  | nil => rfl
  | cons hd tl ih =>
    obtain ⟨k0, v0⟩ := hd
    by_cases hk : k0 = k
    · have hne : ¬(k0 = k') := fun he => h (he ▸ hk)
      rw [replaceC, if_pos hk, lookupC, lookupC, if_neg hne, if_neg hne]
    · rw [replaceC, if_neg hk, lookupC, lookupC]
      by_cases hk' : k0 = k'
      · rw [if_pos hk', if_pos hk']
      · rw [if_neg hk', if_neg hk']
        exact ih

theorem replaceC_self (k : String) (v : FSEntry) (cs : Children)
    (h : lookupC k cs = some v) : replaceC k v cs = cs := by
  induction cs with
  | nil => rfl
  | cons hd tl ih =>
    obtain ⟨k', v'⟩ := hd
    by_cases hk : k' = k
    · rw [lookupC, if_pos hk] at h
      cases h
      rw [replaceC, if_pos hk]
    · rw [lookupC, if_neg hk] at h
      rw [replaceC, if_neg hk, ih h]

theorem lookupC_append (k : String) (cs ds : Children) :
    lookupC k (cs ++ ds) =
      match lookupC k cs with
      | some v => some v
      | none => lookupC k ds := by
  induction cs with
  | nil => simp [lookupC]
  | cons hd tl ih =>
    obtain ⟨k', v'⟩ := hd
    by_cases hk : k' = k
    · rw [List.cons_append, lookupC, if_pos hk, lookupC, if_pos hk]
    · rw [List.cons_append, lookupC, if_neg hk, lookupC, if_neg hk]
      exact ih

/-! ## Helper lemmas: the tree only grows under `_AddRowToEmulatedFS`

`StructLe e e'` says `e'` was obtained from `e` by steps of
`_AddRowToEmulatedFS` below the root: same node kind and filename, the same
timeline time, stats either unchanged or promoted from the placeholder, and
every child still present (related the same way). -/

def StructLe : FSEntry → FSEntry → Prop
  | .file fn st, .file fn' st' => fn' = fn ∧ (st' = st ∨ st = defaultRow)
  | .dir fn st tl cs, .dir fn' st' tl' cs' =>
      fn' = fn ∧ tl' = tl ∧ (st' = st ∨ st = defaultRow) ∧
      ∀ k v, lookupC k cs = some v → ∃ v', lookupC k cs' = some v' ∧ StructLe v v'
  | .file _ _, .dir _ _ _ _ => False
  | .dir _ _ _ _, .file _ _ => False
termination_by a _ => sizeOf a
decreasing_by
  have hm : (k, v) ∈ cs := lookupC_mem k cs v (by assumption)
  have h1 : sizeOf (k, v) < sizeOf cs := List.sizeOf_lt_of_mem hm
  simp only [Prod.mk.sizeOf_spec] at h1
  simp only [FSEntry.dir.sizeOf_spec]
  omega

theorem structLe_file_file {fn : String} {st st' : TimelineRow}
    (hst : st' = st ∨ st = defaultRow) :
    StructLe (.file fn st) (.file fn st') := by
  simp only [StructLe, true_and]
  exact hst

theorem structLe_dir_dir {fn : String} {st st' : TimelineRow} {tl : Int}
    {cs cs' : Children} (hst : st' = st ∨ st = defaultRow)
    (hch : ∀ k v, lookupC k cs = some v →
      ∃ v', lookupC k cs' = some v' ∧ StructLe v v') :
    StructLe (.dir fn st tl cs) (.dir fn st' tl cs') := by
  simp only [StructLe, true_and]
  exact ⟨hst, hch⟩

theorem structLe_refl : ∀ e : FSEntry, StructLe e e
  | .file _ _ => structLe_file_file (Or.inl rfl)
  | .dir _ _ _ cs => structLe_dir_dir (Or.inl rfl) (fun k v h =>
      have hm : (k, v) ∈ cs := lookupC_mem k cs v h
      have hs : sizeOf (k, v) < sizeOf cs := List.sizeOf_lt_of_mem hm
      ⟨v, h, structLe_refl v⟩)
termination_by e => sizeOf e
decreasing_by
  simp only [Prod.mk.sizeOf_spec] at hs
  simp only [FSEntry.dir.sizeOf_spec]
  omega

theorem structLe_trans_aux : ∀ (n : Nat) (a b c : FSEntry), sizeOf a ≤ n →
    StructLe a b → StructLe b c → StructLe a c := by
  intro n
  induction n with
  | zero =>
    intro a b c hsz
    cases a with
    | file fn st => simp [FSEntry.file.sizeOf_spec] at hsz
    | dir fn st tl cs => simp [FSEntry.dir.sizeOf_spec] at hsz
  | succ n ih =>
    intro a b c hsz h1 h2
    cases a with
    | file fn st =>
      cases b with
      | file fnb stb =>
        cases c with
        | file fnc stc =>
          simp only [StructLe] at h1 h2 ⊢
          obtain ⟨hf1, hs1⟩ := h1
          obtain ⟨hf2, hs2⟩ := h2
          refine ⟨hf2.trans hf1, ?_⟩
          rcases hs1 with h | h
          · subst h; exact hs2
          · exact Or.inr h
        | dir _ _ _ _ => simp only [StructLe] at h2
      | dir _ _ _ _ => simp only [StructLe] at h1
    | dir fn st tl cs =>
      cases b with
      | dir fnb stb tlb csb =>
        cases c with
        | dir fnc stc tlc csc =>
          simp only [StructLe] at h1 h2 ⊢
          obtain ⟨hf1, ht1, hs1, hc1⟩ := h1
          obtain ⟨hf2, ht2, hs2, hc2⟩ := h2
          refine ⟨hf2.trans hf1, ht2.trans ht1, ?_, ?_⟩
          · rcases hs1 with h | h
            · subst h; exact hs2
            · exact Or.inr h
          · intro k v hv
            obtain ⟨v', hv', hle⟩ := hc1 k v hv
            obtain ⟨v'', hv'', hle'⟩ := hc2 k v' hv'
            refine ⟨v'', hv'', ih v v' v'' ?_ hle hle'⟩
            have hm := List.sizeOf_lt_of_mem (lookupC_mem k cs v hv)
            simp only [Prod.mk.sizeOf_spec] at hm
            simp only [FSEntry.dir.sizeOf_spec] at hsz
            omega
        | file _ _ => simp only [StructLe] at h2
      | file _ _ => simp only [StructLe] at h1

theorem structLe_trans {a b c : FSEntry} (h1 : StructLe a b) (h2 : StructLe b c) :
    StructLe a c :=
  structLe_trans_aux (sizeOf a) a b c le_rfl h1 h2

theorem StructLe.filename_eq {a b : FSEntry} (h : StructLe a b) :
    b.filename = a.filename := by
  cases a <;> cases b <;> simp only [StructLe] at h
  · exact h.1
  · exact h.1

theorem StructLe.isDir_eq {a b : FSEntry} (h : StructLe a b) :
    b.isDir = a.isDir := by
  cases a <;> cases b <;> simp only [StructLe] at h
  · rfl
  · rfl

theorem StructLe.stats_eq_or_default {a b : FSEntry} (h : StructLe a b) :
    b.stats = a.stats ∨ a.stats = defaultRow := by
  cases a <;> cases b <;> simp only [StructLe] at h
  · exact h.2
  · exact h.2.2.1

theorem StructLe.children_mono {fn fn' : String} {st st' : TimelineRow}
    {tl tl' : Int} {cs cs' : Children}
    (h : StructLe (.dir fn st tl cs) (.dir fn' st' tl' cs')) :
    ∀ k v, lookupC k cs = some v → ∃ v', lookupC k cs' = some v' ∧ StructLe v v' := by
  simp only [StructLe] at h
  exact h.2.2.2

/-- Python's `stats == _TimelineRow()` test coincides with structural
equality with the placeholder row (the placeholder's times are finite
zeros, on which the `nan`-aware equality is structural). -/
theorem pyEqRow_default_iff (r : TimelineRow) :
    pyEqRow r defaultRow = true ↔ r = defaultRow := by
  unfold pyEqRow pyEqInode pyFloatEq defaultRow
  cases r with
  | mk md5 name inode mode uid gid size t1 t2 t3 t4 =>
    cases inode <;> cases t1 <;> cases t2 <;> cases t3 <;> cases t4 <;>
      simp_all [and_assoc]

/-- `updStats` only promotes the placeholder. -/
theorem StructLe.updStats (row : TimelineRow) (e : FSEntry) :
    StructLe e (e.updStats row) := by
  cases e with
  | file fn st =>
    simp only [FSEntry.updStats]
    by_cases h : pyEqRow st defaultRow
    · rw [if_pos h]
      exact structLe_file_file (Or.inr ((pyEqRow_default_iff st).mp h))
    · rw [if_neg h]
      exact structLe_refl _
  | dir fn st tl cs =>
    simp only [FSEntry.updStats]
    by_cases h : pyEqRow st defaultRow
    · rw [if_pos h]
      exact structLe_dir_dir (Or.inr ((pyEqRow_default_iff st).mp h))
        (fun k v hv => ⟨v, hv, structLe_refl v⟩)
    · rw [if_neg h]
      exact structLe_refl _

/-- The pointwise `StructLe` order on children dictionaries, used for the
root's children (the root's stats are special-cased by rows named `/`). -/
def ChildrenLe (cs cs' : Children) : Prop :=
  ∀ k v, lookupC k cs = some v → ∃ v', lookupC k cs' = some v' ∧ StructLe v v'

theorem childrenLe_refl (cs : Children) : ChildrenLe cs cs :=
  fun k v h => ⟨v, h, structLe_refl v⟩

theorem childrenLe_trans {a b c : Children} (h1 : ChildrenLe a b)
    (h2 : ChildrenLe b c) : ChildrenLe a c := by
  intro k v h
  obtain ⟨v', h', le⟩ := h1 k v h
  obtain ⟨v'', h'', le'⟩ := h2 k v' h'
  exact ⟨v'', h'', structLe_trans le le'⟩

theorem childrenLe_replaceC (p : String) (cs : Children) {child : FSEntry}
    (child' : FSEntry) (hlk : lookupC p cs = some child)
    (hle : StructLe child child') : ChildrenLe cs (replaceC p child' cs) := by
  intro k v hv
  by_cases hk : k = p
  · subst hk
    rw [hlk] at hv
    cases hv
    exact ⟨child', lookupC_replaceC_self k child' cs (by rw [hlk]; rfl), hle⟩
  · rw [lookupC_replaceC_ne p k child' cs hk]
    exact ⟨v, hv, structLe_refl v⟩

theorem childrenLe_append (cs ds : Children) : ChildrenLe cs (cs ++ ds) := by
  intro k v hv
  rw [lookupC_append, hv]
  exact ⟨v, rfl, structLe_refl v⟩

/-- The walk of `_AddRowToEmulatedFS` below the root only grows the tree. -/
theorem addRowEntry_le (lastPart : String) (fsEntry : FSEntry) (row : TimelineRow)
    (t : Int) : ∀ (parts : List String) (e : FSEntry),
    StructLe e (addRowEntry lastPart fsEntry row t parts e).1 := by
  intro parts
  induction parts with
  | nil => intro e; exact .updStats row e
  | cons p rest ih =>
    intro e
    simp only [addRowEntry]
    by_cases hp : p = ""
    · rw [if_pos hp]
      exact ih e
    · rw [if_neg hp]
      cases e with
      | file fn st => exact structLe_refl _
      | dir fn st tl cs =>
        cases hlk : lookupC p cs with
        | some child =>
          simp only [hlk]
          exact structLe_dir_dir (Or.inl rfl)
            (childrenLe_replaceC p cs _ hlk (ih child))
        | none =>
          simp only [hlk]
          exact structLe_dir_dir (Or.inl rfl) (childrenLe_append cs _)

/-- The same, at the root: the root's children only grow (its stats and
timeline time are untouched by the walk). -/
theorem addRowRoot_le (lastPart : String) (fsEntry : FSEntry) (row : TimelineRow)
    (t : Int) : ∀ (parts : List String) (s : EFSRoot),
    ChildrenLe s.children (addRowRoot lastPart fsEntry row t parts s).1.children ∧
    (addRowRoot lastPart fsEntry row t parts s).1.timeline_time = s.timeline_time := by
  intro parts
  induction parts with
  | nil => intro s; exact ⟨childrenLe_refl _, rfl⟩
  | cons p rest ih =>
    intro s
    simp only [addRowRoot]
    by_cases hp : p = ""
    · rw [if_pos hp]
      exact ih s
    · rw [if_neg hp]
      cases hlk : lookupC p s.children with
      | some child =>
        simp only [hlk]
        exact ⟨childrenLe_replaceC p s.children _ hlk
          (addRowEntry_le lastPart fsEntry row t rest child), trivial⟩
      | none =>
        simp only [hlk]
        exact ⟨childrenLe_append s.children _, trivial⟩

/-- Lift `StructLe` along an address walk. -/
theorem entryAtE_mono : ∀ (a : List String) (e e' : FSEntry), StructLe e e' →
    ∀ nd, entryAtE a e = some nd →
    ∃ nd', entryAtE a e' = some nd' ∧ StructLe nd nd' := by
  intro a
  induction a with
  | nil =>
    intro e e' h nd hnd
    rw [entryAtE] at hnd
    cases hnd
    exact ⟨e', rfl, h⟩
  | cons k rest ih =>
    intro e e' h nd hnd
    cases e with
    | file _ _ => rw [entryAtE] at hnd; cases hnd
    | dir fn st tl cs =>
      cases e' with
      | file _ _ => simp only [StructLe] at h
      | dir fn' st' tl' cs' =>
        rw [entryAtE] at hnd
        cases hlk : lookupC k cs with
        | none => rw [hlk] at hnd; cases hnd
        | some child =>
          rw [hlk] at hnd
          obtain ⟨child', hlk', hle⟩ := h.children_mono k child hlk
          obtain ⟨nd', hnd', hle'⟩ := ih child child' hle nd hnd
          refine ⟨nd', ?_, hle'⟩
          rw [entryAtE, hlk']
          exact hnd'

/-- Lift `ChildrenLe` of the root's children along a non-root address. -/
theorem entryAt_mono (s s' : EFSRoot) (h : ChildrenLe s.children s'.children) :
    ∀ (a : List String) (nd : FSEntry), a ≠ [] → entryAt s a = some nd →
    ∃ nd', entryAt s' a = some nd' ∧ StructLe nd nd' := by
  intro a nd ha hnd
  cases a with
  | nil => exact absurd rfl ha
  | cons k rest =>
    unfold entryAt rootEntry at hnd ⊢
    rw [entryAtE] at hnd
    cases hlk : lookupC k s.children with
    | none => rw [hlk] at hnd; cases hnd
    | some child =>
      rw [hlk] at hnd
      obtain ⟨child', hlk', hle⟩ := h k child hlk
      obtain ⟨nd', hnd', hle'⟩ := entryAtE_mono rest child child' hle nd hnd
      refine ⟨nd', ?_, hle'⟩
      rw [entryAtE, hlk']
      exact hnd'

/-- When the row's full (filtered) component path already exists in the
tree, the walk of `_AddRowToEmulatedFS` inserts nothing, raises nothing,
and applies the guarded stats update exactly at the reached node. -/
theorem addRowEntry_at_existing (lastPart : String) (fsEntry : FSEntry)
    (row : TimelineRow) (t : Int) :
    ∀ (parts : List String) (e : FSEntry) (nd : FSEntry),
    entryAtE (parts.filter (· ≠ "")) e = some nd →
    (addRowEntry lastPart fsEntry row t parts e).2 = none ∧
    entryAtE (parts.filter (· ≠ "")) (addRowEntry lastPart fsEntry row t parts e).1 =
      some (nd.updStats row) := by
  intro parts
  induction parts with
  | nil =>
    intro e nd hnd
    simp only [List.filter_nil, entryAtE] at hnd ⊢
    cases hnd
    exact ⟨rfl, rfl⟩
  | cons p rest ih =>
    intro e nd hnd
    simp only [addRowEntry]
    by_cases hp : p = ""
    · subst hp
      rw [if_pos rfl]
      rw [show ("" :: rest).filter (· ≠ "") = rest.filter (· ≠ "") by simp] at hnd
      rw [show ("" :: rest).filter (· ≠ "") = rest.filter (· ≠ "") by simp]
      exact ih e nd hnd
    · rw [if_neg hp]
      rw [show (p :: rest).filter (· ≠ "") = p :: rest.filter (· ≠ "") by
        simp [hp]] at hnd
      rw [show (p :: rest).filter (· ≠ "") = p :: rest.filter (· ≠ "") by
        simp [hp]]
      cases e with
      | file _ _ => rw [entryAtE] at hnd; cases hnd
      | dir fn st tl cs =>
        rw [entryAtE] at hnd
        cases hlk : lookupC p cs with
        | none => rw [hlk] at hnd; cases hnd
        | some child =>
          rw [hlk] at hnd
          simp only [hlk]
          obtain ⟨h2, h1⟩ := ih child nd hnd
          refine ⟨h2, ?_⟩
          rw [entryAtE,
            lookupC_replaceC_self p _ cs (by rw [hlk]; rfl)]
          exact h1

/-- The root-level version of `addRowEntry_at_existing`: the reached node's
stats are updated from the row if they are still the placeholder (the root
itself when every component is empty). -/
theorem addRowRoot_at_existing (lastPart : String) (fsEntry : FSEntry)
    (row : TimelineRow) (t : Int) :
    ∀ (parts : List String) (s : EFSRoot) (nd : FSEntry),
    entryAt s (parts.filter (· ≠ "")) = some nd →
    (addRowRoot lastPart fsEntry row t parts s).2 = none ∧
    entryAt (addRowRoot lastPart fsEntry row t parts s).1 (parts.filter (· ≠ "")) =
      some (nd.updStats row) := by
  intro parts
  induction parts with
  | nil =>
    intro s nd hnd
    simp only [List.filter_nil, entryAt, entryAtE] at hnd ⊢
    cases hnd
    refine ⟨rfl, ?_⟩
    simp only [addRowRoot, rootEntry, FSEntry.updStats]
    by_cases h : pyEqRow s.stats defaultRow
    · rw [if_pos h, if_pos h]
    · rw [if_neg h, if_neg h]
  | cons p rest ih =>
    intro s nd hnd
    simp only [addRowRoot]
    by_cases hp : p = ""
    · subst hp
      rw [if_pos rfl]
      rw [show ("" :: rest).filter (· ≠ "") = rest.filter (· ≠ "") by simp] at hnd
      rw [show ("" :: rest).filter (· ≠ "") = rest.filter (· ≠ "") by simp]
      exact ih s nd hnd
    · rw [if_neg hp]
      rw [show (p :: rest).filter (· ≠ "") = p :: rest.filter (· ≠ "") by
        simp [hp]] at hnd
      rw [show (p :: rest).filter (· ≠ "") = p :: rest.filter (· ≠ "") by
        simp [hp]]
      unfold entryAt rootEntry at hnd ⊢
      rw [entryAtE] at hnd
      cases hlk : lookupC p s.children with
      | none => rw [hlk] at hnd; cases hnd
      | some child =>
        rw [hlk] at hnd
        simp only [hlk]
        obtain ⟨h2, h1⟩ :=
          addRowEntry_at_existing lastPart fsEntry row t rest child nd hnd
        refine ⟨h2, ?_⟩
        rw [entryAtE,
          lookupC_replaceC_self p _ s.children (by rw [hlk]; rfl)]
        exact h1

/-- `_AddRowToEmulatedFS` never removes, replaces or demotes a child below
the root, whatever branch it takes. -/
theorem addRow_children_le (os : OsType) (row0 : TimelineRow) (t : Int) (s : EFSRoot) :
    ChildrenLe s.children (addRowToEmulatedFS os row0 t s).1.children := by
  simp only [addRowToEmulatedFS]
  split
  · exact childrenLe_refl _
  · split
    · exact childrenLe_refl _
    · exact (addRowRoot_le _ _ _ _ _ s).1

theorem windowsAdjust_mode (os : OsType) (row : TimelineRow) :
    (windowsAdjust os row).mode_as_string = row.mode_as_string := by
  unfold windowsAdjust
  split <;> rfl

theorem string_eq_empty_of_data_nil (s : String) (h : s.data = []) : s = "" := by
  cases s with
  | mk d => cases h; rfl

/-- `pyEqRow` is reflexive at the placeholder. -/
theorem pyEqRow_default_default : pyEqRow defaultRow defaultRow = true := by decide

/-- The resolution walk against the pure address walk, assuming no proper
prefix of the path denotes a file: resolution succeeds exactly on present
addresses and fails with `InvalidRemotePathError` exactly on absent ones
(never with `AttributeError`). -/
theorem resolveWalk_entryAtE (rp : String) :
    ∀ (parts : List String) (e : FSEntry),
    (∀ k, k < parts.length →
      Option.all FSEntry.isDir (entryAtE (parts.take k) e) = true) →
    ((∀ r, resolveWalk rp parts e = .ok r ↔ entryAtE parts e = some r) ∧
     (resolveWalk rp parts e = .error (.invalidRemotePath rp) ↔
       entryAtE parts e = none)) := by
  intro parts
  induction parts with
  | nil =>
    intro e H
    rw [resolveWalk, entryAtE]
    constructor
    · intro r
      constructor <;> intro h <;> [skip; skip] <;> injection h with h <;> rw [h]
    · simp
  | cons p rest ih =>
    intro e H
    have hroot : e.isDir = true := by
      have := H 0 (by simp)
      rw [List.take_zero, entryAtE] at this
      simpa [Option.all] using this
    cases e with
    | file fn st => simp [FSEntry.isDir] at hroot
    | dir fn st tl cs =>
      rw [resolveWalk, entryAtE]
      cases hlk : lookupC p cs with
      | none =>
        refine ⟨?_, by simp⟩
        intro r
        simp
      | some child =>
        refine ih child ?_
        intro k hk
        have := H (k + 1) (by simpa using Nat.succ_lt_succ hk)
        rw [List.take_succ_cons, entryAtE, hlk] at this
        exact this

/-! ## Helper lemmas: children dictionaries and `lookupKey` -/

theorem lookupKey_append {α : Type} (k : String) (a b : List (String × α)) :
    lookupKey k (a ++ b) =
      match lookupKey k a with
      | some v => some v
      | none => lookupKey k b := by
  induction a with
  | nil => simp [lookupKey]
  | cons hd tl ih =>
    by_cases h : hd.1 = k
    · simp [lookupKey, h]
    · simpa [lookupKey, h] using ih

theorem lookupKey_append_left {α : Type} (k : String) (a b : List (String × α)) (v : α)
    (h : lookupKey k a = some v) : lookupKey k (a ++ b) = some v := by
  rw [lookupKey_append, h]

/-- A string is a substring of the join of any list containing it. -/
theorem containsSubstr_joinLines (xs : List String) (x sub : String)
    (hmem : x ∈ xs) (hsub : containsSubstr x sub) :
    containsSubstr (joinLines xs) sub := by
  induction xs with
  | nil => cases hmem
  | cons hd tl ih =>
    cases hmem with
    | head =>
      cases tl with
      | nil => exact hsub
      | cons h2 t2 =>
        show containsSubstr (x ++ "\n" ++ joinLines (h2 :: t2)) sub
        unfold containsSubstr at hsub ⊢
        rw [String.data_append, String.data_append]
        exact hsub.trans ((List.infix_append [] _ _).trans
          (by simpa using List.infix_append [] (x.data ++ "\n".data) (joinLines (h2 :: t2)).data))
    | tail _ hmem' =>
      cases tl with
      | nil => cases hmem'
      | cons h2 t2 =>
        have := ih hmem'
        show containsSubstr (hd ++ "\n" ++ joinLines (h2 :: t2)) sub
        unfold containsSubstr at this ⊢
        rw [String.data_append, String.data_append]
        exact this.trans ⟨hd.data ++ "\n".data, [], by simp⟩

/-- Concatenation makes the middle a substring. -/
theorem containsSubstr_of_parts (pre mid post : String) :
    containsSubstr (pre ++ mid ++ post) mid := by
  unfold containsSubstr
  rw [String.data_append, String.data_append]
  exact ⟨pre.data, post.data, by simp⟩

/-- Splitting `processLines` across a concatenation of line lists. -/
theorem processLines_append (os : OsType) (t : Int) (a b : List String) (s : EFSRoot) :
    processLines os t (a ++ b) s =
      match processLines os t a s with
      | (s', none) => processLines os t b s'
      | (s', some e) => (s', some e) := by
  induction a generalizing s with
  | nil => simp [processLines]
  | cons l rest ih =>
    have lhs : processLines os t ((l :: rest) ++ b) s =
        (match processLine os t l s with
         | (s', none) => processLines os t (rest ++ b) s'
         | (s', some e) => (s', some e)) := rfl
    have rhs : processLines os t (l :: rest) s =
        (match processLine os t l s with
         | (s', none) => processLines os t rest s'
         | (s', some e) => (s', some e)) := rfl
    rw [lhs, rhs]
    rcases hpl : processLine os t l s with ⟨s', e⟩
    cases e with
    | none => exact ih s'
    | some err => rfl

end GrrShell

namespace GrrShell

/-! # The claims -/

/-! ## C2 — sync/async classification of resumable GetFile / ClientFileFinder flows -/

/-- C2: for every flow classified for resumption, a `GetFile` flow is always
classified synchronous, and a `ClientFileFinder` flow is classified
synchronous exactly when its declared action is a metadata (`STAT`) or hash
action, and asynchronous exactly when its declared action is the
content-download action. -/
theorem c2_resume_classification (f : FlowData) :
    (f.name = "GetFile" →
      getResumableFlowSyncDetails f = .ok (true, some .extractADSResults)) ∧
    (∀ a : FileFinderArgs, f.name = "ClientFileFinder" → f.args = .fileFinder a →
      ((∃ cb, getResumableFlowSyncDetails f = .ok (true, cb)) ↔
        (a.action = .stat ∨ a.action = .hash)) ∧
      ((∃ cb, getResumableFlowSyncDetails f = .ok (false, cb)) ↔
        a.action = .download)) := by
  constructor
  · intro h
    simp [getResumableFlowSyncDetails, h]
  · intro a hname hargs
    have hng : f.name ≠ "GetFile" := by rw [hname]; decide
    have hna : f.name ≠ "ArtifactCollectorFlow" := by rw [hname]; decide
    cases ha : a.action <;>
      simp [getResumableFlowSyncDetails, hname, hargs, hng, hna, ffArgsFromPayload, ha]

/-- Witness for C2 at concrete flows: a `GetFile` flow is synchronous, a
hash-action `ClientFileFinder` flow is synchronous, a download-action one is
asynchronous. -/
theorem c2_resume_classification_witness :
    (getResumableFlowSyncDetails ⟨"F1", "GetFile", .running, .getFile ⟨"/f", ""⟩⟩ =
      .ok (true, some .extractADSResults)) ∧
    (∃ cb, getResumableFlowSyncDetails
      ⟨"F2", "ClientFileFinder", .running, .fileFinder ⟨.hash, ["/f"]⟩⟩ = .ok (true, cb)) ∧
    (∃ cb, getResumableFlowSyncDetails
      ⟨"F3", "ClientFileFinder", .running, .fileFinder ⟨.download, ["/f"]⟩⟩ = .ok (false, cb)) :=
  ⟨(c2_resume_classification ⟨"F1", "GetFile", .running, .getFile ⟨"/f", ""⟩⟩).1 rfl,
   ((c2_resume_classification ⟨"F2", "ClientFileFinder", .running,
      .fileFinder ⟨.hash, ["/f"]⟩⟩).2 ⟨.hash, ["/f"]⟩ rfl rfl).1.mpr (Or.inr rfl),
   ((c2_resume_classification ⟨"F3", "ClientFileFinder", .running,
      .fileFinder ⟨.download, ["/f"]⟩⟩).2 ⟨.download, ["/f"]⟩ rfl rfl).2.mpr rfl⟩

/-! ## C3 — artifact-collection classification ignores the artifact's sources -/

/-- An `ArtifactCollectorFlow` for a registry-value artifact — per the spec
(and the repository's own tests) its applicable source kind `REGISTRY_VALUE`
is in the synchronous set, so classification should be synchronous. -/
def artifactRegValueFlow : FlowData :=
  ⟨"ARTIFACTCOLLECTORFLOWRUNNINGFLOWID", "ArtifactCollectorFlow", .running,
    .artifactCollector ["Windows_RegValue"]⟩

/-- C3, evaluated at the failing input: `_GetResumableFlowSyncDetails`
classifies every `ArtifactCollectorFlow` — including one whose artifact's
applicable source is a registry-value read — as asynchronous with no
callback, and raises nothing; the source-kind analysis and the
`RuntimeError` for unmatched sources do not exist in
`grr_shell_client.py`. -/
theorem c3_artifact_flow_classified_async :
    getResumableFlowSyncDetails artifactRegValueFlow = .ok (false, none) := by
  decide

/-! ## C9 — the flow monitor's bulk fetch is append-only -/

/-- C9: one bulk fetch of the `FlowMonitor` only appends entries for flow
ids not already cached — the result extends the cache, every appended entry
comes from the listed flows and was not cached before, and every existing
cached entry is still found unchanged. -/
theorem c9_singleFetch_append_only (cache : List (String × FlowData))
    (listed : List FlowData) :
    (∃ ext, singleFetch cache listed = cache ++ ext ∧
      ∀ p ∈ ext, lookupKey p.1 cache = none ∧ p.2 ∈ listed ∧ p.1 = p.2.flow_id) ∧
    (∀ k v, lookupKey k cache = some v →
      lookupKey k (singleFetch cache listed) = some v) := by
  have main : ∀ (listed : List FlowData) (cache : List (String × FlowData)),
      ∃ ext, singleFetch cache listed = cache ++ ext ∧
        ∀ p ∈ ext, lookupKey p.1 cache = none ∧ p.2 ∈ listed ∧ p.1 = p.2.flow_id := by
    intro listed
    induction listed with
    | nil => intro cache; exact ⟨[], by simp [singleFetch], by simp⟩
    | cons f rest ih =>
      intro cache
      have step : singleFetch cache (f :: rest) =
          singleFetch
            (if (lookupKey f.flow_id cache).isSome then cache
             else cache ++ [(f.flow_id, f)]) rest := rfl
      by_cases h : (lookupKey f.flow_id cache).isSome
      · obtain ⟨ext, hext, hprop⟩ := ih cache
        refine ⟨ext, ?_, ?_⟩
        · rw [step, if_pos h]; exact hext
        · intro p hp
          obtain ⟨h1, h2, h3⟩ := hprop p hp
          exact ⟨h1, List.mem_cons_of_mem _ h2, h3⟩
      · obtain ⟨ext, hext, hprop⟩ := ih (cache ++ [(f.flow_id, f)])
        refine ⟨(f.flow_id, f) :: ext, ?_, ?_⟩
        · rw [step, if_neg h, hext, List.append_assoc]
          rfl
        · intro p hp
          cases hp with
          | head =>
            exact ⟨Option.not_isSome_iff_eq_none.mp h, List.mem_cons_self _ _, rfl⟩
          | tail _ hp' =>
            obtain ⟨h1, h2, h3⟩ := hprop p hp'
            refine ⟨?_, List.mem_cons_of_mem _ h2, h3⟩
            rw [lookupKey_append] at h1
            match hc : lookupKey p.1 cache with
            | none => rfl
            | some v => rw [hc] at h1; simp at h1
  refine ⟨main listed cache, ?_⟩
  intro k v hk
  obtain ⟨ext, hext, _⟩ := main listed cache
  rw [hext]
  exact lookupKey_append_left k cache ext v hk

/-! ## C4 — background-flow error text in status renders -/

/-- A terminated download flow whose background task failed. -/
def cffTerminatedFlow : FlowData :=
  ⟨"CLIENTFILEFINDERFLOWID", "ClientFileFinder", .terminated,
    .fileFinder ⟨.download, ["/remote/path"]⟩⟩

/-- A `_LaunchedFlow` table holding one finished background flow whose
worker captured an exception and has not yet been reported. -/
def failedLaunchedFlows : List (String × LaunchedFlow) :=
  [("CLIENTFILEFINDERFLOWID", ⟨⟨false, some "Test exception"⟩, cffTerminatedFlow, false⟩)]

/-- A remote view for refreshes (never consulted for terminated flows). -/
def cffEnv : String → FlowData := fun _ => cffTerminatedFlow

/-- C4 counterexample: after the first `GetBackgroundFlowsState` call
reports a failed background flow's exception text, a second call on the
resulting state renders the very same text again — the error is not
reported at most once.  (`exception_displayed` is set by the first call but
`GetBackgroundFlowsState` never consults it; only the destructor does.) -/
theorem c4_counterexample_error_text_repeats :
    containsSubstr (getBackgroundFlowsState cffEnv failedLaunchedFlows).1
      "Test exception" ∧
    containsSubstr (getBackgroundFlowsState cffEnv
      (getBackgroundFlowsState cffEnv failedLaunchedFlows).2).1 "Test exception" ∧
    ((getBackgroundFlowsState cffEnv failedLaunchedFlows).2.map
      (fun kv => kv.2.exception_displayed)) = [true] := by
  decide

/-- C4 as amended: once a background flow's future has completed with a
captured exception, *every* `GetBackgroundFlowsState` render — the next one
and the one after it — includes the exception text; the
`exception_displayed` flag set on first report only suppresses the extra
report in the destructor, not subsequent status renders. -/
theorem c4_error_text_in_every_render (env : String → FlowData)
    (launched : List (String × LaunchedFlow)) (id : String) (lf : LaunchedFlow)
    (msg : String)
    (hmem : (id, lf) ∈ launched) (hrun : lf.future.running = false)
    (hexc : lf.future.exception = some msg) :
    containsSubstr (getBackgroundFlowsState env launched).1 msg ∧
    containsSubstr (getBackgroundFlowsState env
      (getBackgroundFlowsState env launched).2).1 msg := by
  have hline : ∀ (lf' : LaunchedFlow), lf'.future = lf.future →
      containsSubstr (renderBackgroundFlow env lf').1 msg := by
    intro lf' hfut
    simp only [renderBackgroundFlow, hfut, hrun, hexc, Bool.false_eq_true, not_false_iff,
      Option.isSome_some, and_self, if_true, true_and, Option.getD_some]
    exact containsSubstr_of_parts _ _ "\""
  have hmain : ∀ (L : List (String × LaunchedFlow)) (lf' : LaunchedFlow),
      lf'.future = lf.future →
      (id, lf') ∈ L → containsSubstr (getBackgroundFlowsState env L).1 msg := by
    intro L lf' hfut hm
    have hne : ¬L.isEmpty := by
      cases L with
      | nil => cases hm
      | cons a b => simp [List.isEmpty]
    unfold getBackgroundFlowsState
    rw [if_neg hne]
    refine containsSubstr_joinLines _ (renderBackgroundFlow env lf').1 msg ?_
      (hline lf' hfut)
    simp only [List.map_map]
    exact List.mem_map.mpr ⟨(id, lf'), hm, rfl⟩
  refine ⟨hmain launched lf rfl hmem, ?_⟩
  -- the second render: the updated record keeps the future unchanged
  have hfut2 : (renderBackgroundFlow env lf).2.future = lf.future := rfl
  have hmem2 : (id, (renderBackgroundFlow env lf).2) ∈
      (getBackgroundFlowsState env launched).2 := by
    have hne : ¬launched.isEmpty := by
      cases launched with
      | nil => cases hmem
      | cons a b => simp [List.isEmpty]
    unfold getBackgroundFlowsState
    rw [if_neg hne]
    simp only [List.map_map]
    exact List.mem_map.mpr ⟨(id, lf), hmem, rfl⟩
  exact hmain (getBackgroundFlowsState env launched).2
    (renderBackgroundFlow env lf).2 hfut2 hmem2

/-- Witness for the amended C4 at the concrete failed flow. -/
theorem c4_error_text_in_every_render_witness :
    containsSubstr (getBackgroundFlowsState cffEnv failedLaunchedFlows).1
      "Test exception" ∧
    containsSubstr (getBackgroundFlowsState cffEnv
      (getBackgroundFlowsState cffEnv failedLaunchedFlows).2).1 "Test exception" :=
  c4_error_text_in_every_render cffEnv failedLaunchedFlows
    "CLIENTFILEFINDERFLOWID" ⟨⟨false, some "Test exception"⟩, cffTerminatedFlow, false⟩
    "Test exception" (List.mem_singleton.mpr rfl) rfl rfl

/-- Witness for C9 at a concrete cache and listing: the cached entry for
`"A"` survives untouched and only the unseen flow `"B"` is appended. -/
theorem c9_singleFetch_append_only_witness :
    lookupKey "A" (singleFetch
      [("A", ⟨"A", "TimelineFlow", .terminated, .timeline "/"⟩)]
      [⟨"A", "TimelineFlow", .running, .timeline "/"⟩,
       ⟨"B", "ClientFileFinder", .running, .fileFinder ⟨.download, ["/x"]⟩⟩]) =
      some ⟨"A", "TimelineFlow", .terminated, .timeline "/"⟩ :=
  (c9_singleFetch_append_only
    [("A", ⟨"A", "TimelineFlow", .terminated, .timeline "/"⟩)]
    [⟨"A", "TimelineFlow", .running, .timeline "/"⟩,
     ⟨"B", "ClientFileFinder", .running, .fileFinder ⟨.download, ["/x"]⟩⟩]).2
    "A" ⟨"A", "TimelineFlow", .terminated, .timeline "/"⟩ rfl

/-! ## C1 — idempotence of `ParseTimelineFlow` -/

/-- A guarded stats write that results in the placeholder must have written
the placeholder itself. -/
theorem guard_write_default {st row : TimelineRow}
    (h : (if pyEqRow st defaultRow = true then row else st) = defaultRow) :
    row = defaultRow := by
  by_cases hq : pyEqRow st defaultRow = true
  · rw [if_pos hq] at h; exact h
  · rw [if_neg hq] at h
    subst h
    exact absurd pyEqRow_default_default hq

/-- Replay fixity of the guarded stats write: any node above (in the
grow-only order) the written node is left unchanged by writing the same row
again. -/
theorem updStats_fix (row : TimelineRow) :
    ∀ {e u : FSEntry}, StructLe (e.updStats row) u → u.updStats row = u := by
  intro e u hle
  cases e with
  | file fn st =>
    cases u with
    | dir ufn ust utl ucs =>
      simp only [FSEntry.updStats] at hle
      split at hle <;> simp only [StructLe] at hle
    | file ufn ust =>
      simp only [FSEntry.updStats] at hle ⊢
      by_cases hq : pyEqRow ust defaultRow = true
      · rw [if_pos hq]
        have hust : ust = defaultRow := (pyEqRow_default_iff ust).mp hq
        split at hle <;> simp only [StructLe] at hle
        · rcases hle.2 with h | h
          · rw [h]
          · rw [h, ← hust]
        · rename_i hq0
          rcases hle.2 with h | h
          · rw [← h, hust] at hq0
            exact absurd pyEqRow_default_default hq0
          · rw [h] at hq0
            exact absurd pyEqRow_default_default hq0
      · rw [if_neg hq]
  | dir fn st tl cs =>
    cases u with
    | file ufn ust =>
      simp only [FSEntry.updStats] at hle
      split at hle <;> simp only [StructLe] at hle
    | dir ufn ust utl ucs =>
      simp only [FSEntry.updStats] at hle ⊢
      by_cases hq : pyEqRow ust defaultRow = true
      · rw [if_pos hq]
        have hust : ust = defaultRow := (pyEqRow_default_iff ust).mp hq
        split at hle <;> simp only [StructLe] at hle
        · rcases hle.2.2.1 with h | h
          · rw [h]
          · rw [h, ← hust]
        · rename_i hq0
          rcases hle.2.2.1 with h | h
          · rw [← h, hust] at hq0
            exact absurd pyEqRow_default_default hq0
          · rw [h] at hq0
            exact absurd pyEqRow_default_default hq0
      · rw [if_neg hq]

/-- Replay fixity of the walk below the root: re-running a row insertion on
any tree that extends the insertion's own result leaves that tree
unchanged and reproduces the same outcome. -/
theorem addRowEntry_replay (lastPart : String) (fsEntry : FSEntry) (row : TimelineRow)
    (t : Int) : ∀ (parts : List String) (e e₁ u : FSEntry) (res : Option PyErr),
    addRowEntry lastPart fsEntry row t parts e = (e₁, res) →
    StructLe e₁ u →
    addRowEntry lastPart fsEntry row t parts u = (u, res) := by
  intro parts
  induction parts with
  | nil =>
    intro e e₁ u res h hle
    simp only [addRowEntry] at h ⊢
    injection h with h1 h2
    subst h1
    subst h2
    rw [updStats_fix row hle]
  | cons p rest ih =>
    intro e e₁ u res h hle
    simp only [addRowEntry] at h ⊢
    by_cases hp : p = ""
    · rw [if_pos hp] at h
      rw [if_pos hp]
      exact ih e e₁ u res h hle
    · rw [if_neg hp] at h
      rw [if_neg hp]
      cases e with
      | file fn st =>
        injection h with h1 h2
        subst h1
        subst h2
        cases u with
        | file ufn ust => rfl
        | dir ufn ust utl ucs => simp only [StructLe] at hle
      | dir fn st tl cs =>
        cases hlk : lookupC p cs with
        | some child =>
          simp only [hlk] at h
          injection h with h1 h2
          subst h1
          subst h2
          cases u with
          | file ufn ust => simp only [StructLe] at hle
          | dir ufn ust utl ucs =>
            have hc1 : lookupC p (replaceC p
                (addRowEntry lastPart fsEntry row t rest child).1 cs) =
                some (addRowEntry lastPart fsEntry row t rest child).1 :=
              lookupC_replaceC_self p _ cs (by rw [hlk]; rfl)
            obtain ⟨v, hv, hvle⟩ := hle.children_mono p _ hc1
            simp only [hv]
            rw [ih child _ v _ rfl hvle]
            rw [replaceC_self p v ucs hv]
        | none =>
          simp only [hlk] at h
          injection h with h1 h2
          subst h1
          subst h2
          cases u with
          | file ufn ust => simp only [StructLe] at hle
          | dir ufn ust utl ucs =>
            have hc1 : lookupC p (cs ++
                [(p, (addRowEntry lastPart fsEntry row t rest
                  (if p = lastPart then fsEntry else .dir p defaultRow t [])).1)]) =
                some (addRowEntry lastPart fsEntry row t rest
                  (if p = lastPart then fsEntry else .dir p defaultRow t [])).1 := by
              rw [lookupC_append, hlk, lookupC, if_pos rfl]
            obtain ⟨v, hv, hvle⟩ := hle.children_mono p _ hc1
            simp only [hv]
            rw [ih _ _ v _ rfl hvle]
            rw [replaceC_self p v ucs hv]

/-- Replay of a row insertion at the root, against a grown children dict
`C`: the children come back exactly `C`, and the root stats either are left
alone in both runs (the walk descended into a child) or receive the same
guarded write in both runs (the walk skipped every component). -/
theorem addRowRoot_replay (lastPart : String) (fsEntry : FSEntry) (row : TimelineRow)
    (t : Int) : ∀ (parts : List String) (r r₁ : EFSRoot) (res : Option PyErr),
    addRowRoot lastPart fsEntry row t parts r = (r₁, res) →
    ∀ (C : Children), ChildrenLe r₁.children C → ∀ (st : TimelineRow) (tl : Int),
    r₁.timeline_time = r.timeline_time ∧
    ((addRowRoot lastPart fsEntry row t parts ⟨st, tl, C⟩ = (⟨st, tl, C⟩, res) ∧
        r₁.stats = r.stats) ∨
     (addRowRoot lastPart fsEntry row t parts ⟨st, tl, C⟩ =
        (⟨if pyEqRow st defaultRow = true then row else st, tl, C⟩, res) ∧
      r₁.stats = (if pyEqRow r.stats defaultRow = true then row else r.stats) ∧
      res = none)) := by
  intro parts
  induction parts with
  | nil =>
    intro r r₁ res h C hC st tl
    simp only [addRowRoot] at h ⊢
    injection h with h1 h2
    subst h1
    subst h2
    exact ⟨rfl, Or.inr ⟨rfl, rfl, rfl⟩⟩
  | cons p rest ih =>
    intro r r₁ res h C hC st tl
    simp only [addRowRoot] at h ⊢
    by_cases hp : p = ""
    · rw [if_pos hp] at h
      rw [if_pos hp]
      exact ih r r₁ res h C hC st tl
    · rw [if_neg hp] at h
      rw [if_neg hp]
      cases hlk : lookupC p r.children with
      | some child =>
        rw [hlk] at h
        injection h with h1 h2
        subst h1
        subst h2
        have hc1 : lookupC p (replaceC p
            (addRowEntry lastPart fsEntry row t rest child).1 r.children) =
            some (addRowEntry lastPart fsEntry row t rest child).1 :=
          lookupC_replaceC_self p _ r.children (by rw [hlk]; rfl)
        obtain ⟨v, hv, hvle⟩ := hC p _ hc1
        refine ⟨rfl, Or.inl ⟨?_, rfl⟩⟩
        simp only [hv]
        rw [addRowEntry_replay lastPart fsEntry row t rest child _ v _ rfl hvle]
        rw [replaceC_self p v C hv]
      | none =>
        rw [hlk] at h
        injection h with h1 h2
        subst h1
        subst h2
        have hc1 : lookupC p (r.children ++
            [(p, (addRowEntry lastPart fsEntry row t rest
              (if p = lastPart then fsEntry else .dir p defaultRow t [])).1)]) =
            some (addRowEntry lastPart fsEntry row t rest
              (if p = lastPart then fsEntry else .dir p defaultRow t [])).1 := by
          rw [lookupC_append, hlk, lookupC, if_pos rfl]
        obtain ⟨v, hv, hvle⟩ := hC p _ hc1
        refine ⟨rfl, Or.inl ⟨?_, rfl⟩⟩
        simp only [hv]
        rw [addRowEntry_replay lastPart fsEntry row t rest _ _ v _ rfl hvle]
        rw [replaceC_self p v C hv]

/-- Replay of `_AddRowToEmulatedFS` against grown children: three exhaustive
shapes — untouched root fields, the unconditional overwrite by a `/`-named
row, or the guarded root-stats write — each performed identically by the
original run and the replay. -/
theorem addRow_replay (os : OsType) (row0 : TimelineRow) (t : Int)
    (r r₁ : EFSRoot) (res : Option PyErr)
    (h : addRowToEmulatedFS os row0 t r = (r₁, res))
    (C : Children) (hC : ChildrenLe r₁.children C) (st : TimelineRow) (tl : Int) :
    (addRowToEmulatedFS os row0 t ⟨st, tl, C⟩ = (⟨st, tl, C⟩, res) ∧
       r₁.stats = r.stats ∧ r₁.timeline_time = r.timeline_time) ∨
    (∃ w, w.name = "/" ∧
       addRowToEmulatedFS os row0 t ⟨st, tl, C⟩ = (⟨w, t, C⟩, res) ∧
       r₁.stats = w ∧ r₁.timeline_time = t ∧ res = none) ∨
    (∃ w, addRowToEmulatedFS os row0 t ⟨st, tl, C⟩ =
        (⟨if pyEqRow st defaultRow = true then w else st, tl, C⟩, res) ∧
       r₁.stats = (if pyEqRow r.stats defaultRow = true then w else r.stats) ∧
       r₁.timeline_time = r.timeline_time ∧ res = none) := by
  simp only [addRowToEmulatedFS] at h
  by_cases hname : (windowsAdjust os row0).name = "/"
  · rw [if_pos hname] at h
    injection h with h1 h2
    subst h1
    subst h2
    refine Or.inr (Or.inl ⟨windowsAdjust os row0, hname, ?_, rfl, rfl, rfl⟩)
    simp only [addRowToEmulatedFS]
    rw [if_pos hname]
  · rw [if_neg hname] at h
    cases hhead : (windowsAdjust os row0).mode_as_string.data.head? with
    | none =>
      simp only [hhead] at h
      injection h with h1 h2
      subst h1
      subst h2
      refine Or.inl ⟨?_, rfl, rfl⟩
      simp only [addRowToEmulatedFS]
      rw [if_neg hname]
      simp only [hhead]
    | some c =>
      simp only [hhead] at h
      obtain ⟨htl, hdisj⟩ := addRowRoot_replay _ _ _ t _ r r₁ res h C hC st tl
      rcases hdisj with ⟨heq, hst⟩ | ⟨heq, hst, hres⟩
      · refine Or.inl ⟨?_, hst, htl⟩
        simp only [addRowToEmulatedFS]
        rw [if_neg hname]
        simp only [hhead]
        exact heq
      · refine Or.inr (Or.inr ⟨windowsAdjust os row0, ?_, hst, htl, hres⟩)
        simp only [addRowToEmulatedFS]
        rw [if_neg hname]
        simp only [hhead]
        exact heq

/-- Replay of a single feed line: same shapes as `addRow_replay`, with the
skipped (`#`, empty, malformed) lines leaving both states untouched. -/
theorem processLine_replay (os : OsType) (t : Int) (l : String)
    (r r₁ : EFSRoot) (res : Option PyErr)
    (h : processLine os t l r = (r₁, res))
    (C : Children) (hC : ChildrenLe r₁.children C) (st : TimelineRow) (tl : Int) :
    (processLine os t l ⟨st, tl, C⟩ = (⟨st, tl, C⟩, res) ∧
       r₁.stats = r.stats ∧ r₁.timeline_time = r.timeline_time) ∨
    (∃ w, w.name = "/" ∧ processLine os t l ⟨st, tl, C⟩ = (⟨w, t, C⟩, res) ∧
       r₁.stats = w ∧ r₁.timeline_time = t ∧ res = none) ∨
    (∃ w, processLine os t l ⟨st, tl, C⟩ =
        (⟨if pyEqRow st defaultRow = true then w else st, tl, C⟩, res) ∧
       r₁.stats = (if pyEqRow r.stats defaultRow = true then w else r.stats) ∧
       r₁.timeline_time = r.timeline_time ∧ res = none) := by
  simp only [processLine] at h
  cases hhead : l.data.head? with
  | none =>
    simp only [hhead] at h
    injection h with h1 h2
    subst h1
    subst h2
    refine Or.inl ⟨?_, rfl, rfl⟩
    simp only [processLine, hhead]
  | some c =>
    simp only [hhead] at h
    by_cases hc : c = '#'
    · rw [if_pos hc] at h
      injection h with h1 h2
      subst h1
      subst h2
      refine Or.inl ⟨?_, rfl, rfl⟩
      simp only [processLine, hhead]
      rw [if_pos hc]
    · rw [if_neg hc] at h
      cases hrow : mkRow (splitUnescapedPipes
          (if os = .windows then replaceDoubleBackslash l else l)) with
      | error e =>
        simp only [hrow] at h
        injection h with h1 h2
        subst h1
        subst h2
        refine Or.inl ⟨?_, rfl, rfl⟩
        simp only [processLine, hhead]
        rw [if_neg hc]
        simp only [hrow]
      | ok row =>
        simp only [hrow] at h
        have key := addRow_replay os row t r r₁ res h C hC st tl
        rcases key with ⟨heq, h2⟩ | ⟨w, hw, heq, h2⟩ | ⟨w, heq, h2⟩
        · refine Or.inl ⟨?_, h2⟩
          simp only [processLine, hhead]
          rw [if_neg hc]
          simp only [hrow]
          exact heq
        · refine Or.inr (Or.inl ⟨w, hw, ?_, h2⟩)
          simp only [processLine, hhead]
          rw [if_neg hc]
          simp only [hrow]
          exact heq
        · refine Or.inr (Or.inr ⟨w, ?_, h2⟩)
          simp only [processLine, hhead]
          rw [if_neg hc]
          simp only [hrow]
          exact heq

/-- A feed line only grows the root children. -/
theorem processLine_children_le (os : OsType) (t : Int) (l : String) (s : EFSRoot) :
    ChildrenLe s.children (processLine os t l s).1.children := by
  simp only [processLine]
  split
  · exact childrenLe_refl _
  · split
    · exact childrenLe_refl _
    · split
      · exact childrenLe_refl _
      · exact addRow_children_le _ _ _ _

/-- A feed prefix only grows the root children. -/
theorem processLines_children_le (os : OsType) (t : Int) :
    ∀ (L : List String) (s : EFSRoot),
    ChildrenLe s.children (processLines os t L s).1.children := by
  intro L
  induction L with
  | nil =>
    intro s
    exact childrenLe_refl _
  | cons l rest ih =>
    intro s
    simp only [processLines]
    rcases hstep : processLine os t l s with ⟨s', res⟩
    have h1 : ChildrenLe s.children s'.children := by
      have h0 := processLine_children_le os t l s
      rw [hstep] at h0
      exact h0
    cases res with
    | none => exact childrenLe_trans h1 (ih s')
    | some e => exact h1

/-- Componentwise equality of root records. -/
theorem efs_ext (a : TimelineRow) (b : Int) (c : Children) (r : EFSRoot)
    (h1 : a = r.stats) (h2 : b = r.timeline_time) (h3 : c = r.children) :
    (⟨a, b, c⟩ : EFSRoot) = r := by
  subst h1
  subst h2
  subst h3
  rfl

/-- If the root stats end a run still equal to the placeholder, no line of
the run ever changed the root stats or timeline time: the unconditional
`/`-row write and the guarded write of a non-placeholder row would both
leave a non-placeholder behind for good. -/
theorem processLines_default_fixed (os : OsType) (t : Int) :
    ∀ (L : List String) (r R : EFSRoot) (e : Option PyErr),
    processLines os t L r = (R, e) →
    pyEqRow R.stats defaultRow = true →
    r.stats = R.stats ∧ r.timeline_time = R.timeline_time := by
  intro L
  induction L with
  | nil =>
    intro r R e h hdef
    injection h with h1 h2
    subst h1
    exact ⟨rfl, rfl⟩
  | cons l rest ih =>
    intro r R e h hdef
    simp only [processLines] at h
    rcases hstep : processLine os t l r with ⟨r₁, res⟩
    rw [hstep] at h
    cases res with
    | some err =>
      have h' : (r₁, (some err : Option PyErr)) = (R, e) := h
      injection h' with h1 h2
      subst h1
      have key := processLine_replay os t l r r₁ (some err) hstep r₁.children
        (childrenLe_refl _) r.stats r.timeline_time
      rcases key with ⟨_, hst, htl⟩ | ⟨w, hw, _, hst, htl, hres⟩ | ⟨w, _, hst, htl, hres⟩
      · exact ⟨hst.symm, htl.symm⟩
      · exact Option.noConfusion hres
      · exact Option.noConfusion hres
    | none =>
      have h' : processLines os t rest r₁ = (R, e) := h
      obtain ⟨h1, h2⟩ := ih r₁ R e h' hdef
      have key := processLine_replay os t l r r₁ none hstep r₁.children
        (childrenLe_refl _) r.stats r.timeline_time
      rcases key with ⟨_, hst, htl⟩ | ⟨w, hw, _, hst, htl, _⟩ | ⟨w, _, hst, htl, _⟩
      · exact ⟨hst.symm.trans h1, htl.symm.trans h2⟩
      · exfalso
        have hd : r₁.stats = defaultRow := by
          rw [h1]
          exact (pyEqRow_default_iff R.stats).mp hdef
        have hwd : w = defaultRow := hst.symm.trans hd
        rw [hwd] at hw
        exact absurd hw (by decide)
      · have hd : r₁.stats = defaultRow := by
          rw [h1]
          exact (pyEqRow_default_iff R.stats).mp hdef
        by_cases hq : pyEqRow r.stats defaultRow = true
        · refine ⟨((pyEqRow_default_iff r.stats).mp hq).trans
            (h1.symm.trans hd).symm, htl.symm.trans h2⟩
        · exfalso
          rw [if_neg hq] at hst
          apply hq
          rw [hst.symm.trans hd]
          exact pyEqRow_default_default

/-- The master replay induction: re-running a line list on the final
children, with root stats/time taken from either the starting point of the
original run or its end, reproduces the original run's final state and
outcome exactly. -/
theorem processLines_replay (os : OsType) (t : Int) :
    ∀ (L : List String) (r R : EFSRoot) (e : Option PyErr),
    processLines os t L r = (R, e) →
    ∀ (st : TimelineRow) (tl : Int),
    ((st = r.stats ∧ tl = r.timeline_time) ∨ (st = R.stats ∧ tl = R.timeline_time)) →
    processLines os t L ⟨st, tl, R.children⟩ = (R, e) := by
  intro L
  induction L with
  | nil =>
    intro r R e h st tl hdisj
    injection h with h1 h2
    subst h1
    subst h2
    rcases hdisj with ⟨h1, h2⟩ | ⟨h1, h2⟩ <;> subst h1 <;> subst h2 <;> rfl
  | cons l rest ih =>
    intro r R e h st tl hdisj
    simp only [processLines] at h ⊢
    rcases hstep : processLine os t l r with ⟨r₁, res⟩
    rw [hstep] at h
    cases res with
    | some err =>
      have h' : (r₁, (some err : Option PyErr)) = (R, e) := h
      injection h' with h1 h2
      subst h1
      subst h2
      have key := processLine_replay os t l r r₁ (some err) hstep r₁.children
        (childrenLe_refl _) st tl
      rcases key with ⟨heq, hst, htl⟩ | ⟨w, hw, heq, hst, htl, hres⟩ | ⟨w, heq, hst, htl, hres⟩
      · rw [heq]
        have e1 : st = r₁.stats := by
          rcases hdisj with ⟨x1, x2⟩ | ⟨x1, x2⟩
          · exact x1.trans hst.symm
          · exact x1
        have e2 : tl = r₁.timeline_time := by
          rcases hdisj with ⟨x1, x2⟩ | ⟨x1, x2⟩
          · exact x2.trans htl.symm
          · exact x2
        rw [efs_ext st tl r₁.children r₁ e1 e2 rfl]
      · exact Option.noConfusion hres
      · exact Option.noConfusion hres
    | none =>
      have h' : processLines os t rest r₁ = (R, e) := h
      have hC : ChildrenLe r₁.children R.children := by
        have h0 := processLines_children_le os t rest r₁
        rw [h'] at h0
        exact h0
      have key := processLine_replay os t l r r₁ none hstep R.children hC st tl
      rcases key with ⟨heq, hst, htl⟩ | ⟨w, hw, heq, hst, htl, _⟩ | ⟨w, heq, hst, htl, _⟩
      · rw [heq]
        refine ih r₁ R e h' st tl ?_
        rcases hdisj with ⟨e1, e2⟩ | ⟨e1, e2⟩
        · exact Or.inl ⟨e1.trans hst.symm, e2.trans htl.symm⟩
        · exact Or.inr ⟨e1, e2⟩
      · rw [heq]
        exact ih r₁ R e h' w t (Or.inl ⟨hst.symm, htl.symm⟩)
      · rw [heq]
        rcases hdisj with ⟨e1, e2⟩ | ⟨e1, e2⟩
        · subst e1
          subst e2
          exact ih r₁ R e h' _ _ (Or.inl ⟨hst.symm, htl.symm⟩)
        · by_cases hq : pyEqRow st defaultRow = true
          · have hD := processLines_default_fixed os t rest r₁ R e h'
              (by rw [← e1]; exact hq)
            by_cases hq2 : pyEqRow r.stats defaultRow = true
            · refine ih r₁ R e h' _ _ (Or.inl ⟨?_, e2.trans hD.2.symm⟩)
              rw [if_pos hq, hst, if_pos hq2]
            · exfalso
              apply hq2
              rw [if_neg hq2] at hst
              have hRd : R.stats = defaultRow := by
                rw [← e1]
                exact (pyEqRow_default_iff st).mp hq
              rw [hst.symm.trans (hD.1.trans hRd)]
              exact pyEqRow_default_default
          · refine ih r₁ R e h' _ _ (Or.inr ⟨?_, e2⟩)
            rw [if_neg hq]
            exact e1

/-- C1: parsing a timeline feed is idempotent — re-running
`ParseTimelineFlow` with the same feed and timeline timestamp on the tree
left by a first run reproduces exactly that tree (same nodes, same child
maps, same stats, same freshness timestamps) and the same outcome,
including the case where the parse aborted with an uncaught exception. -/
theorem c1_parse_timeline_idempotent (os : OsType) (feed : String) (t : Int) (s : EFSRoot) :
    parseTimelineFlowTree os feed t (parseTimelineFlowTree os feed t s).1 =
      parseTimelineFlowTree os feed t s := by
  unfold parseTimelineFlowTree
  rcases h : processLines os t (pySplitlines (stripCR feed)) s with ⟨R, e⟩
  have key := processLines_replay os t (pySplitlines (stripCR feed)) s R e h
    R.stats R.timeline_time (Or.inr ⟨rfl, rfl⟩)
  rw [efs_ext R.stats R.timeline_time R.children R rfl rfl rfl] at key
  exact key

/-! ## C5 — `ClearPath` invalidation -/

/-- C5 counterexample: `/p` exists only as a placeholder (created by the
row for `/p/a`), so its recorded `stats.name` is empty.  `ClearPath("/p")`
resolves `/p`, sets its `timeline_time`, then resolves
`os.path.dirname('')` — which fails, and the failure is swallowed — so
`/p`'s children are never dropped.  Re-parsing a feed scoped to `/p`
(holding only `/p/b`) then leaves the stale pre-invalidation child `a`
still reachable alongside `b`, refuting the claim. -/
theorem c5_counterexample_stale_child_survives :
    (clearPath (parseTimelineFlowTree .linux "0|/p/a|1|-rw-------|0|0|1|0|0|0|0" 1
      emptyRoot).1 "/p" 5).2 = none ∧
    childKeysAt (clearPath (parseTimelineFlowTree .linux "0|/p/a|1|-rw-------|0|0|1|0|0|0|0" 1
      emptyRoot).1 "/p" 5).1 ["p"] = ["a"] ∧
    childKeysAt (parseTimelineFlowTree .linux "0|/p/b|1|-rw-------|0|0|1|0|0|0|0" 5
      (clearPath (parseTimelineFlowTree .linux "0|/p/a|1|-rw-------|0|0|1|0|0|0|0" 1
        emptyRoot).1 "/p" 5).1).1 ["p"] = ["a", "b"] := by
  refine ⟨by decide, by decide, by decide⟩

/-- Lookup misses when the key is absent. -/
theorem lookupC_eq_none_of_not_mem (k : String) (cs : Children)
    (h : k ∉ cs.map Prod.fst) : lookupC k cs = none := by
  induction cs with
  | nil => rfl
  | cons hd tl ih =>
    obtain ⟨k', v'⟩ := hd
    simp only [List.map_cons, List.mem_cons] at h
    push_neg at h
    rw [lookupC, if_neg (fun he => h.1 he.symm)]
    exact ih h.2

/-- With unique keys (the Python `dict` invariant), popping a key makes its
lookup miss. -/
theorem lookupC_removeC_self (k : String) (cs : Children)
    (hnd : (cs.map Prod.fst).Nodup) : lookupC k (removeC k cs) = none := by
  induction cs with
  | nil => rfl
  | cons hd tl ih =>
    obtain ⟨k', v'⟩ := hd
    simp only [List.map_cons, List.nodup_cons] at hnd
    by_cases hk : k' = k
    · rw [removeC, if_pos hk]
      exact lookupC_eq_none_of_not_mem k tl (hk ▸ hnd.1)
    · rw [removeC, if_neg hk, lookupC, if_neg hk]
      exact ih hnd.2

/-- Walking to `a ++ [k]` is walking to `a` and then looking up `k` among
that directory's children. -/
theorem entryAtE_append_single (k : String) :
    ∀ (a : List String) (e : FSEntry),
    entryAtE (a ++ [k]) e =
      (match entryAtE a e with
       | some (.dir _ _ _ cs) => lookupC k cs
       | _ => none) := by
  intro a
  induction a with
  | nil =>
    intro e
    cases e with
    | file fn st => rfl
    | dir fn st tl cs =>
      simp only [List.nil_append, entryAtE]
      cases hlk : lookupC k cs <;> rfl
  | cons k' rest ih =>
    intro e
    cases e with
    | file fn st => rfl
    | dir fn st tl cs =>
      simp only [List.cons_append, entryAtE]
      cases hlk : lookupC k' cs with
      | none => rfl
      | some e' => exact ih e'

/-- `modifyAtC` applies its function exactly at the addressed node, as seen
by a walk to that address. -/
theorem entryAtE_modifyAtC (F : FSEntry → FSEntry) :
    ∀ (addr : List String) (rfn : String) (rst : TimelineRow) (rtl : Int)
      (cs0 : Children) (v : FSEntry), addr ≠ [] →
    entryAtE addr (.dir rfn rst rtl cs0) = some v →
    entryAtE addr (.dir rfn rst rtl (modifyAtC F addr cs0)) = some (F v) := by
  intro addr
  induction addr with
  | nil => intro _ _ _ _ _ h; exact absurd rfl h
  | cons k rest ih =>
    intro rfn rst rtl cs0 v _ h
    cases rest with
    | nil =>
      simp only [entryAtE] at h
      cases hlk : lookupC k cs0 with
      | none => rw [hlk] at h; exact Option.noConfusion h
      | some e =>
        rw [hlk] at h
        simp only [entryAtE] at h
        cases h
        simp only [modifyAtC, hlk, entryAtE]
        rw [lookupC_replaceC_self k (F v) cs0 (by rw [hlk]; rfl)]
    | cons k2 rest2 =>
      simp only [entryAtE] at h
      cases hlk : lookupC k cs0 with
      | none => rw [hlk] at h; exact Option.noConfusion h
      | some e =>
        rw [hlk] at h
        cases e with
        | file fn2 st2 =>
          simp only [entryAtE] at h
          exact Option.noConfusion h
        | dir fn2 st2 tl2 cs2 =>
          simp only [modifyAtC, hlk, entryAtE]
          rw [lookupC_replaceC_self k
            (.dir fn2 st2 tl2 (modifyAtC F (k2 :: rest2) cs2)) cs0 (by rw [hlk]; rfl)]
          exact ih fn2 st2 tl2 cs2 v (by simp) h

/-- Modifying the children of the directory at `a` yields, at `a`, the same
directory with modified children. -/
theorem entryAt_modChildrenAt (s : EFSRoot) (a : List String) (g : Children → Children)
    (fn : String) (st : TimelineRow) (tl : Int) (cs : Children)
    (h : entryAt s a = some (.dir fn st tl cs)) :
    entryAt (modChildrenAt s a g) a = some (.dir fn st tl (g cs)) := by
  cases a with
  | nil =>
    simp only [entryAt, entryAtE, rootEntry] at h ⊢
    injection h with h'
    injection h' with h1 h2 h3 h4
    subst h1; subst h2; subst h3; subst h4
    rfl
  | cons k rest =>
    have key := entryAtE_modifyAtC (fun e =>
        match e with
        | .dir fn st tl cs => .dir fn st tl (g cs)
        | f => f) (k :: rest) "/" s.stats s.timeline_time s.children
        (.dir fn st tl cs) (by simp) h
    exact key

/-- C5 as amended: when the node at `p` records its real path — its
`stats.name`'s dirname resolves (after the `timeline_time` write) to the
parent directory actually holding it — `ClearPath(p, t)` completes without
error and removes the node at `p` entirely, so no pre-invalidation child
of `p` (stale or otherwise) remains reachable, and a subsequent scoped
parse starts from a tree with nothing at `p`.  The claim fails only for
placeholder nodes, whose empty `stats.name` makes the parent resolution
fail — a failure `ClearPath` swallows, leaving every stale child in place
(see the counterexample). -/
theorem c5_invalidate_removes_resolved_path (s : EFSRoot) (p : String) (t : Int) (node : FSEntry)
    (fn : String) (st : TimelineRow) (tl : Int) (pcs : Children)
    (hp : ¬(p = "/"))
    (hres : resolveRemotePath s p = .ok node)
    (hpar : resolveRemotePath (setTlAt s (pathParts p) t)
      (pyDirname node.stats.name) = .ok (.dir fn st tl pcs))
    (hat : entryAt (setTlAt s (pathParts p) t)
      (pathParts (pyDirname node.stats.name)) = some (.dir fn st tl pcs))
    (hsplit : pathParts p = pathParts (pyDirname node.stats.name) ++ [node.filename])
    (hmem : (lookupC node.filename pcs).isSome = true)
    (hnd : (pcs.map Prod.fst).Nodup) :
    (clearPath s p t).2 = none ∧
    entryAt (clearPath s p t).1 (pathParts p) = none := by
  have hstep : clearPath s p t =
      (modChildrenAt (setTlAt s (pathParts p) t)
        (pathParts (pyDirname node.stats.name)) (removeC node.filename), none) := by
    simp only [clearPath, hres, hpar, hmem]
    rw [if_neg hp]
    exact if_pos trivial
  refine ⟨by rw [hstep], ?_⟩
  rw [hstep]
  set X := modChildrenAt (setTlAt s (pathParts p) t)
    (pathParts (pyDirname node.stats.name)) (removeC node.filename) with hX
  show entryAtE (pathParts p) (rootEntry X) = none
  rw [hsplit]
  rw [entryAtE_append_single]
  have h2 := entryAt_modChildrenAt (setTlAt s (pathParts p) t)
    (pathParts (pyDirname node.stats.name)) (removeC node.filename) fn st tl pcs hat
  unfold entryAt at h2
  rw [← hX] at h2
  rw [h2]
  exact lookupC_removeC_self node.filename pcs hnd

/-- Witness for the amended C5: a real `/p` directory (own row parsed,
child `/p/a`) is removed outright by `ClearPath("/p", 5)`. -/
theorem c5_invalidate_removes_resolved_path_witness :
    (clearPath (parseTimelineFlowTree .linux
        "0|/p|2|drwx------|0|0|1|0|0|0|0\n0|/p/a|1|-rw-------|0|0|1|0|0|0|0" 1
        emptyRoot).1 "/p" 5).2 = none ∧
    entryAt (clearPath (parseTimelineFlowTree .linux
        "0|/p|2|drwx------|0|0|1|0|0|0|0\n0|/p/a|1|-rw-------|0|0|1|0|0|0|0" 1
        emptyRoot).1 "/p" 5).1 (pathParts "/p") = none :=
  c5_invalidate_removes_resolved_path (parseTimelineFlowTree .linux
      "0|/p|2|drwx------|0|0|1|0|0|0|0\n0|/p/a|1|-rw-------|0|0|1|0|0|0|0" 1
      emptyRoot).1 "/p" 5
    (.dir "p" ⟨"0", "/p", .int 2, "drwx------", 0, 0, 1, .rat 0 0, .rat 0 0, .rat 0 0, .rat 0 0⟩
      1 [("a", .file "a"
        ⟨"0", "/p/a", .int 1, "-rw-------", 0, 0, 1, .rat 0 0, .rat 0 0, .rat 0 0, .rat 0 0⟩)])
    "/"
    (setTlAt (parseTimelineFlowTree .linux
      "0|/p|2|drwx------|0|0|1|0|0|0|0\n0|/p/a|1|-rw-------|0|0|1|0|0|0|0" 1
      emptyRoot).1 (pathParts "/p") 5).stats
    (setTlAt (parseTimelineFlowTree .linux
      "0|/p|2|drwx------|0|0|1|0|0|0|0\n0|/p/a|1|-rw-------|0|0|1|0|0|0|0" 1
      emptyRoot).1 (pathParts "/p") 5).timeline_time
    (setTlAt (parseTimelineFlowTree .linux
      "0|/p|2|drwx------|0|0|1|0|0|0|0\n0|/p/a|1|-rw-------|0|0|1|0|0|0|0" 1
      emptyRoot).1 (pathParts "/p") 5).children
    (by decide) rfl rfl rfl (by decide) (by decide) (by decide)

/-! ## C6 — path resolution errors and `RemotePathExists` -/

/-- C6 counterexample: in a tree holding the single file `/f`, resolving
`/f/x` raises `AttributeError` (from `children` on an `_EmulatedFile`), not
`InvalidRemotePathError`, and `RemotePathExists('/f/x')` propagates that
exception instead of returning `False` — `Exists` does not return a boolean
for every path. -/
theorem c6_counterexample_exists_raises :
    resolveRemotePath
      (parseTimelineFlowTree .linux "0|/f|1|-rw-------|0|0|1|0|0|0|0" 1 emptyRoot).1
      "/f/x" = .error .attributeError ∧
    remotePathExists
      (parseTimelineFlowTree .linux "0|/f|1|-rw-------|0|0|1|0|0|0|0" 1 emptyRoot).1
      "/f/x" false = .error .attributeError :=
  ⟨rfl, rfl⟩

/-- No proper prefix of the (already component-split) path denotes a file
node. -/
def prefixesAreDirs (s : EFSRoot) (parts : List String) : Prop :=
  ∀ k, k < parts.length →
    Option.all FSEntry.isDir (entryAt s (parts.take k)) = true

instance (s : EFSRoot) (parts : List String) :
    Decidable (prefixesAreDirs s parts) :=
  Nat.decidableBallLT parts.length (fun k _ => _)

/-- C6 as amended: provided no strict prefix of the path resolves to a
*file* node, resolution walks component by component and fails with
`InvalidRemotePathError` exactly when the path is absent from the tree
(succeeding on the resolved node exactly when it is present), and
`RemotePathExists` returns a boolean — `true` exactly on presence — without
propagating any error.  (When a strict prefix is a file, both raise
`AttributeError` instead, as the counterexample shows.) -/
theorem c6_resolution_and_exists (s : EFSRoot) (p : String)
    (H : prefixesAreDirs s (pathParts p)) :
    (∀ r, resolveRemotePath s p = .ok r ↔ entryAt s (pathParts p) = some r) ∧
    (resolveRemotePath s p = .error (.invalidRemotePath p) ↔
      entryAt s (pathParts p) = none) ∧
    (remotePathExists s p false = .ok ((entryAt s (pathParts p)).isSome)) := by
  have key := resolveWalk_entryAtE p (pathParts p) (rootEntry s) H
  obtain ⟨hok, herr⟩ := key
  refine ⟨hok, herr, ?_⟩
  unfold remotePathExists
  cases hE : entryAt s (pathParts p) with
  | some r =>
    have hr : resolveRemotePath s p = .ok r := (hok r).mpr hE
    rw [hr]
    rfl
  | none =>
    have hr : resolveRemotePath s p = .error (.invalidRemotePath p) := herr.mpr hE
    rw [hr]
    rfl

/-- Witness for the amended C6: with the file `/f` and the directory `/d`
in the tree, `/d/x` fails resolution (its prefixes are directories) and
`RemotePathExists` reports plain `false`; `/d` itself resolves. -/
theorem c6_resolution_and_exists_witness :
    prefixesAreDirs
      (parseTimelineFlowTree .linux
        "0|/f|1|-rw-------|0|0|1|0|0|0|0\n0|/d|2|drwx------|0|0|1|0|0|0|0" 1
        emptyRoot).1 (pathParts "/d/x") ∧
    remotePathExists
      (parseTimelineFlowTree .linux
        "0|/f|1|-rw-------|0|0|1|0|0|0|0\n0|/d|2|drwx------|0|0|1|0|0|0|0" 1
        emptyRoot).1 "/d/x" false = .ok false ∧
    resolveRemotePath
      (parseTimelineFlowTree .linux
        "0|/f|1|-rw-------|0|0|1|0|0|0|0\n0|/d|2|drwx------|0|0|1|0|0|0|0" 1
        emptyRoot).1 "/d/x" = .error (.invalidRemotePath "/d/x") := by
  refine ⟨by decide, ?_, ?_⟩
  · have h := (c6_resolution_and_exists
      (parseTimelineFlowTree .linux
        "0|/f|1|-rw-------|0|0|1|0|0|0|0\n0|/d|2|drwx------|0|0|1|0|0|0|0" 1
        emptyRoot).1 "/d/x" (by decide)).2.2
    rw [h]
    rfl
  · exact (c6_resolution_and_exists
      (parseTimelineFlowTree .linux
        "0|/f|1|-rw-------|0|0|1|0|0|0|0\n0|/d|2|drwx------|0|0|1|0|0|0|0" 1
        emptyRoot).1 "/d/x" (by decide)).2.1.mpr rfl

/-! ## C7 — placeholder stats are replaced, real stats never (below root) -/

/-- C7 counterexample: the *root* violates the claim — a row named `/`
overwrites the root's stats unconditionally, so stats set from a real `/`
row are replaced by a later `/` row. -/
theorem c7_counterexample_root_overwritten :
    ((addRowToEmulatedFS .linux
        ⟨"0", "/", .int 9, "drwxr-xr-x", 0, 0, 0, .rat 5 0, .rat 6 0, .rat 7 0, .rat 0 0⟩
        45 emptyRoot).1.stats ≠ defaultRow) ∧
    ((addRowToEmulatedFS .linux
        ⟨"1", "/", .int 10, "drwxr-xr-x", 0, 0, 0, .rat 5 0, .rat 6 0, .rat 7 0, .rat 0 0⟩
        46
        (addRowToEmulatedFS .linux
          ⟨"0", "/", .int 9, "drwxr-xr-x", 0, 0, 0, .rat 5 0, .rat 6 0, .rat 7 0, .rat 0 0⟩
          45 emptyRoot).1).1.stats =
      ⟨"1", "/", .int 10, "drwxr-xr-x", 0, 0, 0, .rat 5 0, .rat 6 0, .rat 7 0, .rat 0 0⟩) ∧
    (⟨"1", "/", .int 10, "drwxr-xr-x", 0, 0, 0, .rat 5 0, .rat 6 0, .rat 7 0, .rat 0 0⟩ :
      TimelineRow) ≠
      ⟨"0", "/", .int 9, "drwxr-xr-x", 0, 0, 0, .rat 5 0, .rat 6 0, .rat 7 0, .rat 0 0⟩ := by
  refine ⟨by decide, by decide, by decide⟩

/-- C7 as amended: for every node strictly below the root, each
`_AddRowToEmulatedFS` step preserves the invariant — a node whose stats
differ from the zero-valued placeholder never has them changed (and keeps
its kind), while a directory still carrying placeholder stats has them
replaced by the row whose (OS-adjusted, normalised) path is exactly that
node's address.  The root is the exception the counterexample exhibits: a
row named `/` replaces its stats unconditionally. -/
theorem c7_stats_invariant_below_root (os : OsType) (row : TimelineRow) (t : Int)
    (s : EFSRoot) (a : List String) (ha : a ≠ []) :
    (∀ nd : FSEntry, entryAt s a = some nd → nd.stats ≠ defaultRow →
      ∃ nd', entryAt (addRowToEmulatedFS os row t s).1 a = some nd' ∧
        nd'.stats = nd.stats ∧ nd'.isDir = nd.isDir) ∧
    (∀ fn st tl cs, entryAt s a = some (.dir fn st tl cs) → st = defaultRow →
      (windowsAdjust os row).name ≠ "/" →
      pathParts (windowsAdjust os row).name = a →
      row.mode_as_string ≠ "" →
      entryAt (addRowToEmulatedFS os row t s).1 a =
        some (.dir fn (windowsAdjust os row) tl cs)) := by
  constructor
  · intro nd hnd hndef
    obtain ⟨nd', hnd', hle⟩ :=
      entryAt_mono s (addRowToEmulatedFS os row t s).1
        (addRow_children_le os row t s) a nd ha hnd
    refine ⟨nd', hnd', ?_, hle.isDir_eq⟩
    rcases hle.stats_eq_or_default with h | h
    · exact h
    · exact absurd h hndef
  · intro fn st tl cs hnd hdef hname hparts hmode
    simp only [addRowToEmulatedFS]
    rw [if_neg hname]
    have hmode' : (windowsAdjust os row).mode_as_string.data ≠ [] := by
      rw [windowsAdjust_mode]
      intro h
      exact hmode (string_eq_empty_of_data_nil _ h)
    cases hc : (windowsAdjust os row).mode_as_string.data with
    | nil => exact absurd hc hmode'
    | cons c ctail =>
      simp only [hc, List.head?]
      have hfilter :
          ((splitChar '/' (posixNormpath (windowsAdjust os row).name).data).map
            String.mk).filter (· ≠ "") = a := hparts
      have hnd' : entryAt s
          (((splitChar '/' (posixNormpath (windowsAdjust os row).name).data).map
            String.mk).filter (· ≠ "")) = some (.dir fn st tl cs) := by
        rw [hfilter]
        exact hnd
      have key := addRowRoot_at_existing
        (((splitChar '/' (posixNormpath (windowsAdjust os row).name).data).map
          String.mk).getLastD "")
        (if c = 'd' then
          FSEntry.dir (((splitChar '/'
            (posixNormpath (windowsAdjust os row).name).data).map
              String.mk).getLastD "") (windowsAdjust os row) t []
         else
          FSEntry.file (((splitChar '/'
            (posixNormpath (windowsAdjust os row).name).data).map
              String.mk).getLastD "") (windowsAdjust os row))
        (windowsAdjust os row) t
        ((splitChar '/' (posixNormpath (windowsAdjust os row).name).data).map
          String.mk) s _ hnd'
      rw [hfilter] at key
      rw [key.2]
      subst hdef
      simp only [FSEntry.updStats, pyEqRow_default_default, if_pos]

/-- Witness for the amended C7: `/p` is created as a placeholder by the row
for `/p/a`; a later row for `/p` itself replaces its stats, and yet another
row for `/p` no longer does; the file `/p/a` keeps its stats throughout. -/
theorem c7_stats_invariant_below_root_witness :
    (entryAt (parseTimelineFlowTree .linux "0|/p/a|1|-rw-------|0|0|1|0|0|0|0" 1
        emptyRoot).1 ["p"]).map FSEntry.stats = some defaultRow ∧
    ((addRowToEmulatedFS .linux
        ⟨"9", "/p", .int 3, "drwx------", 0, 0, 7, .rat 0 0, .rat 0 0, .rat 0 0, .rat 0 0⟩
        2
        (parseTimelineFlowTree .linux "0|/p/a|1|-rw-------|0|0|1|0|0|0|0" 1
          emptyRoot).1).1 |> fun s2 =>
      (entryAt s2 ["p"]).map FSEntry.stats =
        some ⟨"9", "/p", .int 3, "drwx------", 0, 0, 7, .rat 0 0, .rat 0 0, .rat 0 0, .rat 0 0⟩ ∧
      ∃ nd', entryAt (addRowToEmulatedFS .linux
          ⟨"x", "/p", .int 4, "drwx------", 1, 1, 8, .rat 0 0, .rat 0 0, .rat 0 0, .rat 0 0⟩
          3 s2).1 ["p"] = some nd' ∧
        nd'.stats = ⟨"9", "/p", .int 3, "drwx------", 0, 0, 7, .rat 0 0, .rat 0 0, .rat 0 0, .rat 0 0⟩ ∧
        nd'.isDir = true) := by
  refine ⟨by decide, ?_, ?_⟩
  · have key := (c7_stats_invariant_below_root .linux
      ⟨"9", "/p", .int 3, "drwx------", 0, 0, 7, .rat 0 0, .rat 0 0, .rat 0 0, .rat 0 0⟩
      2 (parseTimelineFlowTree .linux "0|/p/a|1|-rw-------|0|0|1|0|0|0|0" 1
        emptyRoot).1 ["p"] (by decide)).2 "p" defaultRow 1
      [("a", .file "a" ⟨"0", "/p/a", .int 1, "-rw-------", 0, 0, 1, .rat 0 0, .rat 0 0, .rat 0 0, .rat 0 0⟩)]
      rfl rfl (by decide) (by decide) (by decide)
    rw [key]
    rfl
  · obtain ⟨nd', h1, h2, h3⟩ := (c7_stats_invariant_below_root .linux
      ⟨"x", "/p", .int 4, "drwx------", 1, 1, 8, .rat 0 0, .rat 0 0, .rat 0 0, .rat 0 0⟩
      3 (addRowToEmulatedFS .linux
        ⟨"9", "/p", .int 3, "drwx------", 0, 0, 7, .rat 0 0, .rat 0 0, .rat 0 0, .rat 0 0⟩
        2 (parseTimelineFlowTree .linux "0|/p/a|1|-rw-------|0|0|1|0|0|0|0" 1
          emptyRoot).1).1 ["p"] (by decide)).1
      (.dir "p"
        ⟨"9", "/p", .int 3, "drwx------", 0, 0, 7, .rat 0 0, .rat 0 0, .rat 0 0, .rat 0 0⟩
        1 [("a", .file "a" ⟨"0", "/p/a", .int 1, "-rw-------", 0, 0, 1, .rat 0 0, .rat 0 0, .rat 0 0, .rat 0 0⟩)])
      rfl (by decide)
    exact ⟨nd', h1, by rw [h2]; rfl, by rw [h3]; rfl⟩

/-! ## C8 — globbing only in the final path component -/

/-- Stable insertion permutes: inserting is prepending, up to order. -/
theorem stableInsert_perm (le : α → α → Bool) (x : α) (xs : List α) :
    List.Perm (stableInsert le x xs) (x :: xs) := by
  induction xs with
  | nil => exact List.Perm.refl _
  | cons y ys ih =>
    simp only [stableInsert]
    split
    · exact List.Perm.refl _
    · exact (List.Perm.cons y ih).trans (List.Perm.swap x y ys)

/-- The stable sort is a permutation of its input. -/
theorem stableSort_perm (le : α → α → Bool) (xs : List α) :
    List.Perm (stableSort le xs) xs := by
  induction xs with
  | nil => exact List.Perm.refl _
  | cons x xs ih =>
    exact (stableInsert_perm le x (stableSort le xs)).trans (List.Perm.cons x ih)

/-- `sorted(xs, key=..., reverse=...)` returns a permutation of `xs`. -/
theorem pySorted_perm (le : α → α → Bool) (rev : Bool) (xs : List α) :
    List.Perm (pySorted le rev xs) xs := by
  unfold pySorted
  split
  · exact (List.reverse_perm _).trans ((stableSort_perm le xs.reverse).trans (List.reverse_perm xs))
  · exact stableSort_perm le xs

/-- A basename never contains a path separator. -/
theorem pyBasename_no_slash (p : String) : ∀ c ∈ (pyBasename p).data, c ≠ '/' := by
  intro c hc
  simp only [pyBasename] at hc
  rw [List.mem_reverse] at hc
  have := List.mem_takeWhile_imp hc
  simpa using this

/-- When `b` holds no separator, `os.path.join(a, b)` starts with `a`, so any
message ending in the join contains `a` as a substring. -/
theorem containsSubstr_pre_join (pre a b : String) (hb : ∀ c ∈ b.data, c ≠ '/') :
    containsSubstr (pre ++ pyJoin a b) a := by
  unfold containsSubstr pyJoin
  have hb' : ¬ (b.data.head? = some '/') := by
    cases hd : b.data with
    | nil => simp
    | cons c l =>
      simp only [List.head?, Option.some.injEq]
      exact hb c (hd ▸ List.mem_cons_self c l)
  rw [if_neg hb']
  split
  · exact ⟨pre.data, b.data, by simp [String.data_append]⟩
  · exact ⟨pre.data, '/' :: b.data, by simp [String.data_append]⟩

/-- C8: writing `np` for the normalised form of the requested path, if the
dirname of `np` still contains a `*` wildcard (i.e. a glob sits in a
non-final component), `Ls` fails with the `RuntimeError` usage error whose
message is `os.path.join` of the offending dirname and the glob tail — a
message containing the offending prefix as a substring.  If the dirname is
wildcard-free, `Ls` never produces that usage error, and a wildcard in the
final component alone is applied as shell-style `fnmatch` matching: on a
directory, the returned entries are a permutation (the sort) of the `.`
self-entry plus the child entries filtered by the glob. -/
theorem c8_glob_only_in_final_component (s : EFSRoot) (pwd q : String)
    (sortkey : Option String) (asc : Bool) (np : String)
    (hnp : np = if q = "" then pwd else normaliseFSPath pwd q) :
    (np.data.contains '*' = true → (pyDirname np).data.contains '*' = true →
      Ls s pwd (some q) sortkey asc = .error (.globUsage
        ("Globbing only supported for the final path component: "
          ++ pyJoin (pyDirname np) (pyBasename np))) ∧
      containsSubstr ("Globbing only supported for the final path component: "
          ++ pyJoin (pyDirname np) (pyBasename np)) (pyDirname np)) ∧
    ((pyDirname np).data.contains '*' = false →
      (∀ m, Ls s pwd (some q) sortkey asc ≠ .error (.globUsage m)) ∧
      (np.data.contains '*' = true →
        ∀ fn st tl cs, resolveRemotePath s (pyDirname np) = .ok (.dir fn st tl cs) →
          ∃ es, Ls s pwd (some q) sortkey asc = .ok es ∧
            List.Perm es ((((FSEntry.dir fn st tl cs).getLSEntry true) ::
              cs.map (fun c => c.2.getLSEntry)).filter
              (fun e => fnmatchMatches (pyBasename np) e.name)))) := by
  subst hnp
  constructor
  · intro h1 h2
    constructor
    · simp only [Ls, h1, h2, if_true, eq_self_iff_true, Option.isSome_some, true_and, and_self,
        dite_true, Option.get_some]
    · exact containsSubstr_pre_join _ _ _ (pyBasename_no_slash _)
  · intro h2
    constructor
    · intro m hEq
      by_cases h1 : (if q = "" then pwd else normaliseFSPath pwd q).data.contains '*' = true
      · simp only [Ls, h1, h2, if_true, eq_self_iff_true, Option.isSome_some, true_and,
          Bool.false_eq_true, and_false, dite_false, Option.get_some] at hEq
        revert hEq
        cases hr : resolveRemotePath s
            (pyDirname (if q = "" then pwd else normaliseFSPath pwd q)) with
        | ok e =>
          cases e <;> intro hEq <;> simp at hEq
        | error e =>
          cases e <;> intro hEq <;> simp at hEq
      · rw [Bool.not_eq_true] at h1
        simp only [Ls, h1, Bool.false_eq_true, if_false, Option.isSome_none, false_and,
          dite_false] at hEq
        revert hEq
        cases hr : resolveRemotePath s (if q = "" then pwd else normaliseFSPath pwd q) with
        | ok e =>
          cases e <;> intro hEq <;> simp at hEq
        | error e =>
          cases e <;> intro hEq <;> simp at hEq
    · intro h1 fn st tl cs hres
      refine ⟨pySorted (lsSortLe sortkey) (!asc)
          ((((FSEntry.dir fn st tl cs).getLSEntry true) ::
            cs.map (fun c => c.2.getLSEntry)).filter
            (fun e => fnmatchMatches
              (pyBasename (if q = "" then pwd else normaliseFSPath pwd q)) e.name)),
        ?_, pySorted_perm _ _ _⟩
      simp only [Ls, h1, h2, if_true, eq_self_iff_true, Option.isSome_some, true_and,
        Bool.false_eq_true, and_false, dite_false, Option.get_some, hres]
      split
      · rename_i tail hX heqTail heqH
        rw [if_pos h1] at heqTail
        injection heqTail with htail
        subst htail
        rfl
      · rename_i heqTail heqH
        rw [if_pos h1] at heqTail
        exact Option.noConfusion heqTail

/-- Witness for C8 at the spec example `List("/tmp/pa*th/x")`: the usage
error identifies the offending prefix `/tmp/pa*th`. -/
theorem c8_glob_only_in_final_component_witness :
    Ls emptyRoot "/" (some "/tmp/pa*th/x") none true = .error (.globUsage
      "Globbing only supported for the final path component: /tmp/pa*th/x") ∧
    containsSubstr "Globbing only supported for the final path component: /tmp/pa*th/x"
      "/tmp/pa*th" := by
  have h := (c8_glob_only_in_final_component emptyRoot "/" "/tmp/pa*th/x" none true
    (normaliseFSPath "/" "/tmp/pa*th/x") (by decide)).1 (by decide) (by decide)
  refine ⟨h.1.trans (by rfl), ?_⟩
  have e : ("Globbing only supported for the final path component: "
      ++ pyJoin (pyDirname (normaliseFSPath "/" "/tmp/pa*th/x"))
        (pyBasename (normaliseFSPath "/" "/tmp/pa*th/x"))) =
      "Globbing only supported for the final path component: /tmp/pa*th/x" := by rfl
  exact e ▸ h.2

/-! ## C10 — an empty feed line aborts the parse non-atomically -/

/-- C10: when a timeline feed contains an empty line (its `i`-th line after
carriage-return stripping and splitting), and the lines before it process
without error, `ParseTimelineFlow` raises the uncaught `IndexError` from
`line[0]` on reaching that line, and the tree it leaves behind is exactly
the tree built from the preceding lines — the parse is not atomic. -/
theorem c10_empty_line_aborts_parse (os : OsType) (t : Int) (s : EFSRoot) (feed : String)
    (i : Nat) (hi : i < (pySplitlines (stripCR feed)).length)
    (hempty : (pySplitlines (stripCR feed)).get ⟨i, hi⟩ = "")
    (hok : (processLines os t ((pySplitlines (stripCR feed)).take i) s).2 = none) :
    parseTimelineFlowTree os feed t s =
      ((processLines os t ((pySplitlines (stripCR feed)).take i) s).1,
        some .indexError) := by
  have lines := pySplitlines (stripCR feed)
  have hgetElem : (pySplitlines (stripCR feed))[i] = "" := by
    rw [← hempty]; simp
  have hsplit : pySplitlines (stripCR feed) =
      (pySplitlines (stripCR feed)).take i ++
        ("" :: (pySplitlines (stripCR feed)).drop (i + 1)) := by
    conv_lhs => rw [← List.take_append_drop i (pySplitlines (stripCR feed)),
      List.drop_eq_getElem_cons hi, hgetElem]
  rcases hpre : processLines os t ((pySplitlines (stripCR feed)).take i) s with ⟨s', e⟩
  rw [hpre] at hok
  simp only at hok
  subst hok
  have hempty_step : ∀ (u : EFSRoot),
      processLines os t ("" :: (pySplitlines (stripCR feed)).drop (i + 1)) u =
        (u, some .indexError) := fun u => rfl
  have h1 : parseTimelineFlowTree os feed t s =
      processLines os t
        ((pySplitlines (stripCR feed)).take i ++
          ("" :: (pySplitlines (stripCR feed)).drop (i + 1))) s := by
    show processLines os t (pySplitlines (stripCR feed)) s = _
    conv_lhs => rw [hsplit]
  rw [h1, processLines_append, hpre]
  show processLines os t ("" :: (pySplitlines (stripCR feed)).drop (i + 1)) s' =
    (s', some .indexError)
  exact hempty_step s'

/-- Witness for C10: a concrete feed whose second line is empty — the parse
errors with `IndexError`, and the row parsed from the first line
(`/root/file`) is still present in the resulting tree, while the row after
the empty line (`/other`) is not. -/
theorem c10_empty_line_aborts_parse_witness :
    (parseTimelineFlowTree .linux
        "0|/root/file|7|-rwx------|6|5|4096|100.0|101.0|102.0|0.0\n\n0|/other|1|-rw-------|0|0|1|0|0|0|0"
        7 emptyRoot =
      ((processLines .linux 7
          ((pySplitlines (stripCR
            "0|/root/file|7|-rwx------|6|5|4096|100.0|101.0|102.0|0.0\n\n0|/other|1|-rw-------|0|0|1|0|0|0|0")).take 1)
          emptyRoot).1, some .indexError)) ∧
    childKeysAt (parseTimelineFlowTree .linux
        "0|/root/file|7|-rwx------|6|5|4096|100.0|101.0|102.0|0.0\n\n0|/other|1|-rw-------|0|0|1|0|0|0|0"
        7 emptyRoot).1 ["root"] = ["file"] ∧
    childKeysAt (parseTimelineFlowTree .linux
        "0|/root/file|7|-rwx------|6|5|4096|100.0|101.0|102.0|0.0\n\n0|/other|1|-rw-------|0|0|1|0|0|0|0"
        7 emptyRoot).1 [] = ["root"] :=
  ⟨c10_empty_line_aborts_parse .linux 7 emptyRoot
      "0|/root/file|7|-rwx------|6|5|4096|100.0|101.0|102.0|0.0\n\n0|/other|1|-rw-------|0|0|1|0|0|0|0"
      1 (by decide) (by decide) (by decide),
   by decide, by decide⟩

end GrrShell
